import Mathlib

/-!
Verification development for the surface-projection attribute transfer engine
of the ShapeKeysAdvanced repository (src/meshDataTransfer.py).

The embedding works over exact rationals: every float32 coordinate of the
original becomes a value of type ℚ.  IEEE NaN, which in the original arises
exactly when the barycentric solving denominator is zero (a 0/0 division),
is modelled by `Option`: a row of the transferred array is `none` exactly
when the original row would be NaN-poisoned.  External collaborators
(mathutils' BVHTree nearest-point query) are modelled as an oracle function
parameter of the transfer state; theorems that depend on the geometric
contract of that oracle take the contract as an explicit hypothesis.

Blender-side state (a mesh datablock) is modelled by `MeshData`: vertex
positions, triangle faces, per-vertex selection floats, named vertex
groups (sparse weight maps) and named shape keys.  The transfer operations
return the updated target mesh together with `Except String Bool`,
mirroring the original's `return True / return False / raise RuntimeError`;
a raise returns the target as it was at the moment of the raise.
-/

/-- A 3-component vector with exact rational coordinates
(the shallow embedding of a float32 triple). -/
structure Vec3 where
  x : ℚ
  y : ℚ
  z : ℚ
deriving DecidableEq, Repr

def Vec3.zero : Vec3 := ⟨0, 0, 0⟩

instance : Inhabited Vec3 := ⟨Vec3.zero⟩

instance : Zero Vec3 := ⟨Vec3.zero⟩

def Vec3.add (a b : Vec3) : Vec3 := ⟨a.x + b.x, a.y + b.y, a.z + b.z⟩

def Vec3.sub (a b : Vec3) : Vec3 := ⟨a.x - b.x, a.y - b.y, a.z - b.z⟩

def Vec3.smul (c : ℚ) (a : Vec3) : Vec3 := ⟨c * a.x, c * a.y, c * a.z⟩

instance : Add Vec3 := ⟨Vec3.add⟩

instance : Sub Vec3 := ⟨Vec3.sub⟩

instance : SMul ℚ Vec3 := ⟨Vec3.smul⟩

/-- Dot product, the embedding of `np.einsum("ij,ij->i", a, b)` per row. -/
def Vec3.dot (a b : Vec3) : ℚ := a.x * b.x + a.y * b.y + a.z * b.z

/-- Cross product, the embedding of `np.cross` per row. -/
def Vec3.cross (a b : Vec3) : Vec3 :=
  ⟨a.y * b.z - a.z * b.y, a.z * b.x - a.x * b.z, a.x * b.y - a.y * b.x⟩

/-- Squared euclidean norm (`np.linalg.norm` squared, kept squared to stay in ℚ). -/
def Vec3.normSq (a : Vec3) : ℚ := a.dot a

/-- Squared distance between two points. -/
def Vec3.sqDist (a b : Vec3) : ℚ := (a - b).normSq

@[simp] theorem Vec3.add_def (a b : Vec3) :
    a + b = ⟨a.x + b.x, a.y + b.y, a.z + b.z⟩ := rfl

@[simp] theorem Vec3.sub_def (a b : Vec3) :
    a - b = ⟨a.x - b.x, a.y - b.y, a.z - b.z⟩ := rfl

@[simp] theorem Vec3.smul_def (c : ℚ) (a : Vec3) :
    c • a = ⟨c * a.x, c * a.y, c * a.z⟩ := rfl

theorem Vec3.normSq_nonneg (a : Vec3) : 0 ≤ a.normSq := by
  have hx := mul_self_nonneg a.x
  have hy := mul_self_nonneg a.y
  have hz := mul_self_nonneg a.z
  simp only [Vec3.normSq, Vec3.dot]
  nlinarith

theorem Vec3.sqDist_nonneg (a b : Vec3) : 0 ≤ a.sqDist b :=
  Vec3.normSq_nonneg _

theorem Vec3.sqDist_self (a : Vec3) : a.sqDist a = 0 := by
  cases a
  simp [Vec3.sqDist, Vec3.normSq, Vec3.dot]

theorem Vec3.eq_of_sqDist_eq_zero {a b : Vec3} (h : a.sqDist b = 0) : a = b := by
  obtain ⟨a1, a2, a3⟩ := a
  obtain ⟨b1, b2, b3⟩ := b
  simp only [Vec3.sqDist, Vec3.normSq, Vec3.dot, Vec3.sub_def] at h
  have h1 : a1 - b1 = 0 := by
    nlinarith [mul_self_nonneg (a1 - b1), mul_self_nonneg (a2 - b2), mul_self_nonneg (a3 - b3)]
  have h2 : a2 - b2 = 0 := by
    nlinarith [mul_self_nonneg (a1 - b1), mul_self_nonneg (a2 - b2), mul_self_nonneg (a3 - b3)]
  have h3 : a3 - b3 = 0 := by
    nlinarith [mul_self_nonneg (a1 - b1), mul_self_nonneg (a2 - b2), mul_self_nonneg (a3 - b3)]
  have e1 : a1 = b1 := by linarith
  have e2 : a2 = b2 := by linarith
  have e3 : a3 = b3 := by linarith
  simp [e1, e2, e3]

/-- A triangle given by its three corner positions
(one row of the `hit_faces` array). -/
def Tri : Type := Vec3 × Vec3 × Vec3

instance : DecidableEq Tri := by unfold Tri; infer_instance

instance : Inhabited Tri := ⟨(Vec3.zero, Vec3.zero, Vec3.zero)⟩

/-- The all-zero triangle: the initial value of a `hit_faces` row
(`np.zeros((v_count, 3, 3))`), which a missed projection leaves in place. -/
def zeroTri : Tri := (Vec3.zero, Vec3.zero, Vec3.zero)

/-- The point `A + a*(B-A) + b*(C-A)` of the plane spanned by triangle `t`
(used to state that a hit point lies on its hit triangle). -/
def tri_plane_pt (t : Tri) (a b : ℚ) : Vec3 :=
  t.1 + a • (t.2.1 - t.1) + b • (t.2.2 - t.1)

/-- Denominator of the 2x2 barycentric system of
`MeshDataTransfer.get_barycentric_coords`: `d00 * d11 - d01 * d01`. -/
def baryDenom (t : Tri) : ℚ :=
  let v0 := t.2.1 - t.1
  let v1 := t.2.2 - t.1
  Vec3.dot v0 v0 * Vec3.dot v1 v1 - Vec3.dot v0 v1 * Vec3.dot v0 v1

/-- Embedding of `MeshDataTransfer.get_barycentric_coords` for one row
(`points[i]`, `triangles[i]`).  The original divides by `denom` in float32,
producing NaN for a degenerate triangle (the numerators vanish exactly when
the denominator does); a NaN row is modelled as `none`. -/
def get_barycentric_coords (p : Vec3) (t : Tri) : Option (ℚ × ℚ × ℚ) :=
  let v0 := t.2.1 - t.1
  let v1 := t.2.2 - t.1
  let v2 := p - t.1
  let d00 := Vec3.dot v0 v0
  let d01 := Vec3.dot v0 v1
  let d11 := Vec3.dot v1 v1
  let d20 := Vec3.dot v2 v0
  let d21 := Vec3.dot v2 v1
  let denom := d00 * d11 - d01 * d01
  if denom = 0 then none
  else
    let v := (d11 * d20 - d01 * d21) / denom
    let w := (d00 * d21 - d01 * d20) / denom
    some (1 - v - w, v, w)

/-- Embedding of `MeshDataTransfer.calculate_barycentric_location` for one row:
`tri_points[:,0]*bary[:,[0]] + tri_points[:,1]*bary[:,[1]] + tri_points[:,2]*bary[:,[2]]`. -/
def calculate_barycentric_location (t : Tri) (b : ℚ × ℚ × ℚ) : Vec3 :=
  b.1 • t.1 + b.2.1 • t.2.1 + b.2.2 • t.2.2

/-- `(np.isclose(·, 0))` on the area-vector magnitude uses `atol = 1e-8`
(`rtol` contributes nothing against 0); squared to stay in ℚ. -/
def zeroAreaTolSq : ℚ := 1 / 10 ^ 16

/-- One row of the vectorized zero-area test of
`MeshDataTransfer.check_zero_area_triangles`. -/
def near_zero_area (t : Tri) : Bool :=
  decide (Vec3.normSq (Vec3.cross (t.2.1 - t.1) (t.2.2 - t.1)) ≤ zeroAreaTolSq)

/-- Embedding of `MeshDataTransfer.check_zero_area_triangles`:
`bool(np.isclose(np.linalg.norm(np.cross(v1, v2), axis=1), 0).any())`. -/
def check_zero_area_triangles (ts : List Tri) : Bool :=
  ts.any near_zero_area

theorem baryDenom_eq_normSq_cross (t : Tri) :
    baryDenom t = Vec3.normSq (Vec3.cross (t.2.1 - t.1) (t.2.2 - t.1)) := by
  obtain ⟨⟨a1, a2, a3⟩, ⟨b1, b2, b3⟩, ⟨c1, c2, c3⟩⟩ := t
  simp only [baryDenom, Vec3.sub_def, Vec3.dot, Vec3.cross, Vec3.normSq]
  ring

theorem near_zero_area_of_baryDenom_eq_zero {t : Tri} (h : baryDenom t = 0) :
    near_zero_area t = true := by
  rw [near_zero_area, decide_eq_true_iff, ← baryDenom_eq_normSq_cross, h]
  rw [zeroAreaTolSq]
  norm_num

theorem get_barycentric_coords_eq_none_iff (p : Vec3) (t : Tri) :
    get_barycentric_coords p t = none ↔ baryDenom t = 0 := by
  rw [get_barycentric_coords, baryDenom]
  by_cases h : Vec3.dot (t.2.1 - t.1) (t.2.1 - t.1) * Vec3.dot (t.2.2 - t.1) (t.2.2 - t.1) -
      Vec3.dot (t.2.1 - t.1) (t.2.2 - t.1) * Vec3.dot (t.2.1 - t.1) (t.2.2 - t.1) = 0 <;>
    simp [h]

theorem Vec3.dot_comm (a b : Vec3) : a.dot b = b.dot a := by
  obtain ⟨a1, a2, a3⟩ := a; obtain ⟨b1, b2, b3⟩ := b
  simp only [Vec3.dot]; ring

theorem Vec3.dot_smul_add_smul (a b : ℚ) (u v w : Vec3) :
    Vec3.dot (a • u + b • v) w = a * Vec3.dot u w + b * Vec3.dot v w := by
  obtain ⟨u1, u2, u3⟩ := u; obtain ⟨v1, v2, v3⟩ := v; obtain ⟨w1, w2, w3⟩ := w
  simp only [Vec3.dot, Vec3.smul_def, Vec3.add_def]; ring

/-- Solving the 2x2 barycentric system at a point that is an exact affine
combination of the triangle's edges recovers the combination coefficients. -/
theorem bary_system_solution (d00 d01 d11 a b : ℚ)
    (hden : d00 * d11 - d01 * d01 ≠ 0) :
    (d11 * (a * d00 + b * d01) - d01 * (a * d01 + b * d11)) / (d00 * d11 - d01 * d01) = a ∧
    (d00 * (a * d01 + b * d11) - d01 * (a * d00 + b * d01)) / (d00 * d11 - d01 * d01) = b := by
  constructor <;> rw [div_eq_iff hden] <;> ring

/-- For a non-degenerate triangle, the barycentric weights of a point of the
triangle's plane are defined and sum to 1, and re-interpolating the corner
positions with them reproduces the point. -/
theorem tri_plane_pt_sub_corner (t : Tri) (a b : ℚ) :
    tri_plane_pt t a b - t.1 = a • (t.2.1 - t.1) + b • (t.2.2 - t.1) := by
  obtain ⟨⟨a1, a2, a3⟩, ⟨b1, b2, b3⟩, ⟨c1, c2, c3⟩⟩ := t
  simp only [tri_plane_pt, Vec3.sub_def, Vec3.add_def, Vec3.smul_def, Vec3.mk.injEq]
  refine ⟨by ring, by ring, by ring⟩

theorem get_barycentric_coords_plane_pt (t : Tri) (a b : ℚ)
    (hden : baryDenom t ≠ 0) :
    get_barycentric_coords (tri_plane_pt t a b) t = some (1 - a - b, a, b) := by
  have h20 : Vec3.dot (tri_plane_pt t a b - t.1) (t.2.1 - t.1) =
      a * Vec3.dot (t.2.1 - t.1) (t.2.1 - t.1) + b * Vec3.dot (t.2.1 - t.1) (t.2.2 - t.1) := by
    rw [tri_plane_pt_sub_corner, Vec3.dot_smul_add_smul, Vec3.dot_comm (t.2.2 - t.1) (t.2.1 - t.1)]
  have h21 : Vec3.dot (tri_plane_pt t a b - t.1) (t.2.2 - t.1) =
      a * Vec3.dot (t.2.1 - t.1) (t.2.2 - t.1) + b * Vec3.dot (t.2.2 - t.1) (t.2.2 - t.1) := by
    rw [tri_plane_pt_sub_corner, Vec3.dot_smul_add_smul]
  have hden2 : Vec3.dot (t.2.1 - t.1) (t.2.1 - t.1) * Vec3.dot (t.2.2 - t.1) (t.2.2 - t.1) -
      Vec3.dot (t.2.1 - t.1) (t.2.2 - t.1) * Vec3.dot (t.2.1 - t.1) (t.2.2 - t.1) ≠ 0 := hden
  obtain ⟨hv, hw⟩ := bary_system_solution (Vec3.dot (t.2.1 - t.1) (t.2.1 - t.1))
    (Vec3.dot (t.2.1 - t.1) (t.2.2 - t.1)) (Vec3.dot (t.2.2 - t.1) (t.2.2 - t.1)) a b hden2
  simp only [get_barycentric_coords]
  rw [if_neg hden2, h20, h21, hv, hw]

theorem calculate_barycentric_location_plane_pt (t : Tri) (a b : ℚ) :
    calculate_barycentric_location t (1 - a - b, a, b) = tri_plane_pt t a b := by
  obtain ⟨⟨a1, a2, a3⟩, ⟨b1, b2, b3⟩, ⟨c1, c2, c3⟩⟩ := t
  simp only [calculate_barycentric_location, tri_plane_pt, Vec3.smul_def, Vec3.add_def,
    Vec3.sub_def, Vec3.mk.injEq]
  refine ⟨by ring, by ring, by ring⟩

theorem get_barycentric_coords_sum {p : Vec3} {t : Tri} {u v w : ℚ}
    (h : get_barycentric_coords p t = some (u, v, w)) : u + v + w = 1 := by
  simp only [get_barycentric_coords] at h
  by_cases hd : Vec3.dot (t.2.1 - t.1) (t.2.1 - t.1) * Vec3.dot (t.2.2 - t.1) (t.2.2 - t.1) -
      Vec3.dot (t.2.1 - t.1) (t.2.2 - t.1) * Vec3.dot (t.2.1 - t.1) (t.2.2 - t.1) = 0
  · rw [if_pos hd] at h
    exact absurd h (by simp)
  · rw [if_neg hd] at h
    simp only [Option.some.injEq, Prod.mk.injEq] at h
    obtain ⟨hu, hv2, hw2⟩ := h
    rw [← hu, ← hv2, ← hw2]
    ring


/-- Name of the reference shape key that `get_shape_keys_vert_pos` skips and
`set_position_as_shape_key` auto-creates. -/
def basisKeyName : String := "Basis"

/-- A named vertex group: a sparse per-vertex weight map
(`None` = vertex not in the group; reading such a vertex yields 0.0
through the `RuntimeError` fallback of `get_vertex_group_weights`). -/
structure VGroup where
  name : String
  lock_weight : Bool
  weight : Nat → Option ℚ

/-- A shape key block: name, mute flag, displaced positions aligned with the
mesh's vertices, slider bounds and current slider value. -/
structure ShapeKey where
  name : String
  mute : Bool
  positions : List Vec3
  slider_min : ℚ
  slider_max : ℚ
  value : ℚ
deriving DecidableEq

/-- The mesh datablock view used by `MeshData` in the original: vertex
positions, (already triangulated) faces, per-vertex selection floats,
vertex groups and shape keys (`none` when `mesh.shape_keys is None`). -/
structure MeshData where
  verts : List Vec3
  faces : List (Nat × Nat × Nat)
  selected : List ℚ
  vertex_groups : List VGroup
  shape_keys : Option (List ShapeKey)

def MeshData.v_count (m : MeshData) : Nat := m.verts.length

def MeshData.get_verts_position (m : MeshData) : List Vec3 := m.verts

def MeshData.set_verts_position (m : MeshData) (co : List Vec3) : MeshData :=
  { m with verts := co }

def MeshData.get_selected_verts (m : MeshData) : List ℚ := m.selected

/-- `[not g.lock_weight for g in v_groups]`, `None` when there are no groups. -/
def MeshData.get_locked_vertex_groups_array (m : MeshData) : Option (List Bool) :=
  if m.vertex_groups.isEmpty then none
  else some (m.vertex_groups.map fun g => !g.lock_weight)

/-- Embedding of `MeshData.get_vertex_groups_names`. -/
def MeshData.get_vertex_groups_names (m : MeshData) (ignore_locked : Bool) :
    Option (List String) :=
  if m.vertex_groups.isEmpty then none
  else if ignore_locked then
    some ((m.vertex_groups.filter fun g => !g.lock_weight).map fun g => g.name)
  else some (m.vertex_groups.map fun g => g.name)

/-- Embedding of `MeshData.get_vertex_group_weights`: a dense per-vertex
array, 0.0 where the vertex is not in the group; `None` if the group is
absent. -/
def MeshData.get_vertex_group_weights (m : MeshData) (vertex_group_name : String) :
    Option (List ℚ) :=
  (m.vertex_groups.find? fun g => g.name == vertex_group_name).map fun g =>
    (List.range m.v_count).map fun i => (g.weight i).getD 0

/-- `v_group.add([i], value, 'REPLACE')`: set vertex `i`'s weight, adding the
vertex to the group if absent. -/
def VGroup.addReplace (g : VGroup) (i : Nat) (v : ℚ) : VGroup :=
  { g with weight := fun j => if j = i then some v else g.weight j }

/-- The write loop of `set_vertex_group_weights`:
`for i, value in enumerate(w): if value > 0.0: v_group.add([i], value, 'REPLACE')`. -/
def writeWeights : VGroup → Nat → List ℚ → VGroup
  | g, _, [] => g
  | g, i, v :: rest => writeWeights (if v > 0 then g.addReplace i v else g) (i + 1) rest

/-- Apply `f` to the first group with the given name (names are unique in
Blender's vertex-group collection). -/
def updateFirstGroup (f : VGroup → VGroup) (n : String) : List VGroup → List VGroup
  | [] => []
  | g :: gs => if g.name == n then f g :: gs else g :: updateFirstGroup f n gs

/-- Embedding of `MeshData.set_vertex_group_weights`: get-or-create the
group, then write each strictly positive weight. -/
def MeshData.set_vertex_group_weights (m : MeshData) (group_name : String)
    (weights : List ℚ) : MeshData :=
  let m2 :=
    if (m.vertex_groups.find? fun g => g.name == group_name).isSome then m
    else { m with vertex_groups := m.vertex_groups ++ [⟨group_name, false, fun _ => none⟩] }
  { m2 with vertex_groups :=
      (updateFirstGroup (fun g => writeWeights g 0 weights) group_name m2.vertex_groups) }

def MeshData.shape_keys_list (m : MeshData) : List ShapeKey := m.shape_keys.getD []

/-- Embedding of `MeshData.get_shape_key_vert_pos`. -/
def MeshData.get_shape_key_vert_pos (m : MeshData) (shape_key_name : String) :
    Option (List Vec3) :=
  match m.shape_keys with
  | none => none
  | some ks => (ks.find? fun sk => sk.name == shape_key_name).map fun sk => sk.positions

/-- Embedding of `MeshData.get_shape_keys_vert_pos`: every non-Basis
(and, optionally, non-muted) shape key's positions, keyed by name. -/
def MeshData.get_shape_keys_vert_pos (m : MeshData) (exclude_muted : Bool) :
    Option (List (String × List Vec3)) :=
  match m.shape_keys with
  | none => none
  | some ks =>
    some ((ks.filter fun sk => !(sk.name == basisKeyName) && !(exclude_muted && sk.mute)).map
      fun sk => (sk.name, sk.positions))

/-- A freshly added key block (`obj.shape_key_add(name=..., from_mix=False)`):
its data starts at the mesh's current vertex positions. -/
def newShapeKey (keyName : String) (positions : List Vec3) : ShapeKey :=
  { name := keyName, mute := false, positions := positions,
    slider_min := 0, slider_max := 1, value := 0 }

/-- Embedding of `MeshData.set_position_as_shape_key`: auto-create Basis if
the mesh has no shape keys, get-or-create the named block, overwrite its
data with `co`, and when `activate` zero every slider and set this one to 1. -/
def MeshData.set_position_as_shape_key (m : MeshData) (shape_key_name : String)
    (co : List Vec3) (activate : Bool) : MeshData :=
  let ks := match m.shape_keys with
    | none => [newShapeKey basisKeyName m.verts]
    | some ks => ks
  let ks := if ks.any fun sk => sk.name == shape_key_name then ks
    else ks ++ [newShapeKey shape_key_name m.verts]
  let ks := ks.map fun sk =>
    if sk.name == shape_key_name then { sk with positions := co } else sk
  let ks := if activate then ks.map fun sk =>
      if sk.name == shape_key_name then { sk with value := 1 } else { sk with value := 0 }
    else ks
  { m with shape_keys := some ks }

/-- The slider-bound copy performed after each shape-key write
(`self.target.shape_keys[sk_name].slider_min = slider_min`, ...). -/
def MeshData.set_shape_key_sliders (m : MeshData) (shape_key_name : String)
    (smin smax : ℚ) : MeshData :=
  match m.shape_keys with
  | none => m
  | some ks => { m with shape_keys := some (ks.map fun sk =>
      if sk.name == shape_key_name then
        { sk with slider_min := smin, slider_max := smax }
      else sk) }

/-- One target vertex's projection record (`ray_casted[i]`, `hit_faces[i]`,
`related_ids[i]`, `missed_projections[i]`). -/
structure Projection where
  ray_casted : Vec3
  hit_face : Tri
  related_ids : Nat × Nat × Nat
  missed : Bool
deriving DecidableEq, Inhabited

def topologyMethod : String := "TOPOLOGY"

/-- One `MeshDataTransfer` invocation's inputs.  `nearest` is the embedding
of the external BVH query against the source surface
(`self.source.bvhtree.find_nearest(v.co)` in CLOSEST mode,
the normal ray-cast pair in RAYCAST mode): it yields a hit point and the
owning (triangulated) face index, or `none` for a miss.  The embedding
covers local-space, non-snapping, non-UV operation. -/
structure XferState where
  source : MeshData
  target : MeshData
  search_method : String
  vertex_group : Option String
  invert_vertex_group : Bool
  restrict_to_selection : Bool
  exclude_locked_groups : Bool
  exclude_muted_shapekeys : Bool
  nearest : Vec3 → Option (Vec3 × Nat)

/-- Embedding of `MeshDataTransfer.get_vertices_mask`. -/
def XferState.get_vertices_mask (st : XferState) : Option (List ℚ) :=
  let selection := if st.restrict_to_selection then some st.target.get_selected_verts else none
  match st.vertex_group with
  | none => selection
  | some vg =>
    match st.target.get_vertex_group_weights vg with
    | none => selection
    | some vgw =>
      let vgw := if st.invert_vertex_group then vgw.map fun w => 1 - w else vgw
      match selection with
      | some sel => some (List.zipWith (fun a s => a * s) vgw sel)
      | none => some vgw

/-- The per-vertex body of `MeshDataTransfer.cast_verts`: on a hit, record
the hit point, the owning face's corner positions and source vertex ids;
on a miss, record the vertex's own position and leave the zero-initialized
triangle and ids in place. -/
def triOfFace (m : MeshData) (f : Nat × Nat × Nat) : Tri :=
  (m.verts.getD f.1 Vec3.zero, m.verts.getD f.2.1 Vec3.zero, m.verts.getD f.2.2 Vec3.zero)

def cast_vert (source : MeshData) (nearest : Vec3 → Option (Vec3 × Nat)) (co : Vec3) :
    Projection :=
  match nearest co with
  | some (hit, face_id) =>
    let f := source.faces.getD face_id (0, 0, 0)
    { ray_casted := hit
      hit_face := triOfFace source f
      related_ids := f
      missed := false }
  | none =>
    { ray_casted := co, hit_face := zeroTri, related_ids := (0, 0, 0), missed := true }

/-- Embedding of `MeshDataTransfer.cast_verts` over all target vertices. -/
def XferState.cast_verts (st : XferState) : List Projection :=
  st.target.verts.map (cast_vert st.source st.nearest)

/-- The projection cache built by `ensure_projection_cache`. -/
structure ProjCache where
  ray_casted : List Vec3
  hit_faces : List Tri
  related_ids : List (Nat × Nat × Nat)
  missed_projections : List Bool
  has_zero_area_faces : Bool
  barycentric_coords : List (Option (ℚ × ℚ × ℚ))

/-- Embedding of `MeshDataTransfer.ensure_projection_cache` (non-TOPOLOGY
modes): cast every target vertex, flag zero-area hit triangles, compute the
barycentric weights. -/
def XferState.ensure_projection_cache (st : XferState) : ProjCache :=
  let ps := st.cast_verts
  let hit_faces := ps.map fun p => p.hit_face
  let ray_casted := ps.map fun p => p.ray_casted
  { ray_casted := ray_casted
    hit_faces := hit_faces
    related_ids := ps.map fun p => p.related_ids
    missed_projections := ps.map fun p => p.missed
    has_zero_area_faces := check_zero_area_triangles hit_faces
    barycentric_coords := List.zipWith get_barycentric_coords ray_casted hit_faces }

/-- Embedding of `MeshDataTransfer.get_transferred_vert_coords`: gather the
three source attribute rows of each hit triangle and interpolate them with
the cached barycentric weights (a NaN weight row propagates to the result). -/
def triOfIds (transfer_coord : List Vec3) (ids : Nat × Nat × Nat) : Tri :=
  (transfer_coord.getD ids.1 Vec3.zero, transfer_coord.getD ids.2.1 Vec3.zero,
    transfer_coord.getD ids.2.2 Vec3.zero)

def get_transferred_vert_coords (cache : ProjCache) (transfer_coord : List Vec3) :
    List (Option Vec3) :=
  List.zipWith
    (fun ids ob => ob.map fun bc => calculate_barycentric_location
      (triOfIds transfer_coord ids) bc)
    cache.related_ids cache.barycentric_coords

def zipWith3L {α β γ δ : Type} (f : α → β → γ → δ) : List α → List β → List γ → List δ
  | a :: as, b :: bs, c :: cs => f a b c :: zipWith3L f as bs cs
  | _, _, _ => []

/-- `np.where(missed_projections, undeformed_verts, transferred)` per row. -/
def whereMissed (missed : List Bool) (undeformed : List Vec3) (t : List (Option Vec3)) :
    List (Option Vec3) :=
  zipWith3L (fun mi u o => if mi then some u else o) missed undeformed t

/-- `np.where(np.isnan(transferred), undeformed_verts, transferred)` per row
(a NaN row is `none`; NaN rows are whole-row uniform, see
`get_barycentric_coords`). -/
def replace_nan (undeformed : List Vec3) (t : List (Option Vec3)) : List (Option Vec3) :=
  List.zipWith (fun u o => match o with | none => some u | some v => some v) undeformed t

/-- `transferred * mask + undeformed * (1 - mask)` per row (NaN propagates:
in float32 `NaN * m + u * (1-m)` is NaN for every `m`). -/
def mask_blend (mask : List ℚ) (undeformed : List Vec3) (t : List (Option Vec3)) :
    List (Option Vec3) :=
  zipWith3L (fun mq u o => o.map fun v => mq • v + (1 - mq) • u) mask undeformed t

/-- The `RuntimeError` message of `MeshDataTransfer._topology_validate`. -/
def topologyErrorMsg (sourceCount targetCount : Nat) : String :=
  "Topology transfer requires identical vertex counts. Source: " ++ toString sourceCount ++
    ", Target: " ++ toString targetCount

def positionShapeKeyName : String := "Transferred Position"

/-- The non-TOPOLOGY pipeline of `MeshDataTransfer.transfer_vertex_position`
up to (and including) the mask blend: interpolate the source positions,
replace NaN rows with the target's undeformed positions when zero-area hit
triangles were flagged, replace missed rows with the undeformed positions,
then blend with the vertex mask. -/
def transfer_vertex_position_array (st : XferState) : List (Option Vec3) :=
  let undeformed := st.target.get_verts_position
  let cache := st.ensure_projection_cache
  let t := get_transferred_vert_coords cache st.source.get_verts_position
  let t := if cache.has_zero_area_faces then replace_nan undeformed t else t
  let t := whereMissed cache.missed_projections undeformed t
  match st.get_vertices_mask with
  | none => t
  | some mask => mask_blend mask undeformed t

/-- Embedding of `MeshDataTransfer.transfer_vertex_position`.  In TOPOLOGY
mode the projection cache is never built (`missed_projections` stays `None`,
so the missed-row replacement is a no-op and is omitted here); the vertex
counts are validated first, raising before any write. -/
def XferState.transfer_vertex_position (st : XferState) (as_shape_key : Bool) :
    MeshData × Except String Bool :=
  let undeformed := st.target.get_verts_position
  let base_coords := st.source.get_verts_position
  if st.search_method = topologyMethod then
    if st.source.v_count ≠ st.target.v_count then
      (st.target, Except.error (topologyErrorMsg st.source.v_count st.target.v_count))
    else
      let transferred := base_coords
      let transferred := match st.get_vertices_mask with
        | none => transferred
        | some mask => zipWith3L (fun mq u v => mq • v + (1 - mq) • u) mask undeformed transferred
      if as_shape_key then
        (st.target.set_position_as_shape_key positionShapeKeyName transferred true, Except.ok true)
      else (st.target.set_verts_position transferred, Except.ok true)
  else
    let transferred := (transfer_vertex_position_array st).map fun o => o.getD Vec3.zero
    if as_shape_key then
      (st.target.set_position_as_shape_key positionShapeKeyName transferred true, Except.ok true)
    else (st.target.set_verts_position transferred, Except.ok true)

/-- The weight interpolation of `transfer_vertex_groups`: weights are put in
the x column of a zero vector array, interpolated like positions, and the x
column is taken back out. -/
def group_transferred_weights (cache : ProjCache) (weights : List ℚ) : List (Option ℚ) :=
  (get_transferred_vert_coords cache (weights.map fun w => ⟨w, 0, 0⟩)).map fun o =>
    o.map fun v => v.x

/-- One iteration of the `for group_name in source_groups` loop of
`MeshDataTransfer.transfer_vertex_groups`. -/
def transfer_one_group (st : XferState) (mask : Option (List ℚ)) (tgt : MeshData)
    (group_name : String) : MeshData :=
  match st.source.get_vertex_group_weights group_name with
  | none => tgt
  | some weights =>
    let transferred : List (Option ℚ) :=
      if st.search_method = topologyMethod then weights.map some
      else group_transferred_weights st.ensure_projection_cache weights
    let transferred := match mask with
      | none => transferred
      | some m =>
        if st.search_method = topologyMethod then
          zipWith3L (fun (o : Option ℚ) (w mq : ℚ) => o.map fun tv => tv * mq + w * (1 - mq))
            transferred weights m
        else
          List.zipWith (fun (o : Option ℚ) (mq : ℚ) => o.map fun tv => tv * mq + 0 * (1 - mq))
            transferred m
    tgt.set_vertex_group_weights group_name (transferred.map fun o => o.getD 0)

/-- Embedding of `MeshDataTransfer.transfer_vertex_groups`. -/
def XferState.transfer_vertex_groups (st : XferState) : MeshData × Except String Bool :=
  match st.source.get_vertex_groups_names st.exclude_locked_groups with
  | none => (st.target, Except.ok false)
  | some source_groups =>
    if source_groups.isEmpty then (st.target, Except.ok false)
    else if st.search_method = topologyMethod ∧ st.source.v_count ≠ st.target.v_count then
      (st.target, Except.error (topologyErrorMsg st.source.v_count st.target.v_count))
    else
      let mask := st.get_vertices_mask
      (source_groups.foldl (transfer_one_group st mask) st.target, Except.ok true)

/-- `missed_projections` as seen by the shape-key transfer: in TOPOLOGY mode
the cache is never built and the `np.where(None, ...)` replacement is a
no-op, modelled as an all-false mask. -/
def XferState.missedList (st : XferState) : List Bool :=
  if st.search_method = topologyMethod then List.replicate st.target.v_count false
  else st.ensure_projection_cache.missed_projections

/-- `has_zero_area_faces` as seen by the transfers: `False` in TOPOLOGY mode
(the cache is never built). -/
def XferState.hasZeroFlag (st : XferState) : Bool :=
  if st.search_method = topologyMethod then false
  else st.ensure_projection_cache.has_zero_area_faces

def lookupPairs (l : List (String × List Vec3)) (n : String) : Option (List Vec3) :=
  (l.find? fun p => p.1 == n).map fun p => p.2

/-- `base_transferred_position` of `MeshDataTransfer.transfer_shape_keys`:
the source rest pose expressed in target-vertex space, with the NaN and
missed-projection fallbacks applied. -/
def XferState.base_transferred_position (st : XferState) : List (Option Vec3) :=
  let undeformed := st.target.get_verts_position
  let base_coords := st.source.get_verts_position
  let bt :=
    if st.search_method = topologyMethod then base_coords.map some
    else
      let t := get_transferred_vert_coords st.ensure_projection_cache base_coords
      if st.ensure_projection_cache.has_zero_area_faces then replace_nan undeformed t else t
  whereMissed st.missedList undeformed bt

/-- The per-shape-key array computed by one iteration of the
`for sk_name, sk_points in shape_keys.items()` loop of
`MeshDataTransfer.transfer_shape_keys`: interpolate the shape's positions,
apply the missed and NaN fallbacks, blend through a pre-existing target
shape of the same name if any, then apply the vertex mask. -/
def transfer_one_shape_key_array (st : XferState) (undeformed : List Vec3)
    (base_transferred : List (Option Vec3)) (mask : Option (List ℚ))
    (target_sks : List (String × List Vec3)) (sk : String × List Vec3) :
    List (Option Vec3) :=
  let transferred : List (Option Vec3) :=
    if st.search_method = topologyMethod then sk.2.map some
    else get_transferred_vert_coords st.ensure_projection_cache sk.2
  let transferred := whereMissed st.missedList undeformed transferred
  let transferred := if st.hasZeroFlag then replace_nan undeformed transferred else transferred
  let transferred := match lookupPairs target_sks sk.1 with
    | none => transferred
    | some existing =>
      zipWith3L (fun e o b => match o, b with
        | some tv, some bv => some (e + (tv - bv))
        | _, _ => none) existing transferred base_transferred
  match mask with
  | none => transferred
  | some m => mask_blend m undeformed transferred

/-- One iteration of the shape-key loop: write the computed array as the
named shape key (activate = False) and copy the source's slider bounds. -/
def transfer_one_shape_key (st : XferState) (undeformed : List Vec3)
    (base_transferred : List (Option Vec3)) (mask : Option (List ℚ))
    (target_sks : List (String × List Vec3)) (tgt : MeshData)
    (sk : String × List Vec3) : MeshData :=
  let smin := ((st.source.shape_keys_list.find? fun k => k.name == sk.1).map
    fun k => k.slider_min).getD 0
  let smax := ((st.source.shape_keys_list.find? fun k => k.name == sk.1).map
    fun k => k.slider_max).getD 1
  let tgt := tgt.set_position_as_shape_key sk.1
    ((transfer_one_shape_key_array st undeformed base_transferred mask target_sks sk).map
      fun o => o.getD Vec3.zero) false
  tgt.set_shape_key_sliders sk.1 smin smax

/-- Embedding of `MeshDataTransfer.transfer_shape_keys` (driver transfer,
an external best-effort step, is out of scope). -/
def XferState.transfer_shape_keys (st : XferState) : MeshData × Except String Bool :=
  match st.source.get_shape_keys_vert_pos st.exclude_muted_shapekeys with
  | none => (st.target, Except.ok false)
  | some shape_keys =>
    if shape_keys.isEmpty then (st.target, Except.ok false)
    else if st.search_method = topologyMethod ∧ st.source.v_count ≠ st.target.v_count then
      (st.target, Except.error (topologyErrorMsg st.source.v_count st.target.v_count))
    else
      let undeformed := st.target.get_verts_position
      let base_transferred := st.base_transferred_position
      let mask := st.get_vertices_mask
      let target_sks := (st.target.get_shape_keys_vert_pos false).getD []
      (shape_keys.foldl (transfer_one_shape_key st undeformed base_transferred mask target_sks)
        st.target, Except.ok true)

/-- Observation helper: the sparse weight stored for vertex `i` in the named
group (`none` when the vertex is not in the group or the group is absent). -/
def MeshData.groupWeightEntry (m : MeshData) (group_name : String) (i : Nat) : Option ℚ :=
  (m.vertex_groups.find? fun g => g.name == group_name).bind fun g => g.weight i

def closestMethod : String := "CLOSEST"

def maskGroupName : String := "Mask"

def keyAName : String := "KeyA"

def weightGroupName : String := "GroupG"

/-- A unit right triangle in the xy-plane, used as the source surface of the
concrete instances below. -/
def triVerts : List Vec3 := [⟨0, 0, 0⟩, ⟨1, 0, 0⟩, ⟨0, 1, 0⟩]

/-- Source mesh: the unit triangle with a Basis key and one shape key that
lifts every vertex by (0,0,1). -/
def srcShapeMesh : MeshData :=
  { verts := triVerts
    faces := [(0, 1, 2)]
    selected := [0, 0, 0]
    vertex_groups := []
    shape_keys := some [newShapeKey basisKeyName triVerts,
      { name := keyAName, mute := false, positions := [⟨0, 0, 1⟩, ⟨1, 0, 1⟩, ⟨0, 1, 1⟩],
        slider_min := 0, slider_max := 1, value := 0 }] }

/-- Source mesh: the unit triangle carrying one vertex group with weight 1 at
every vertex and no shape keys. -/
def srcWeightMesh : MeshData :=
  { verts := triVerts
    faces := [(0, 1, 2)]
    selected := [0, 0, 0]
    vertex_groups := [⟨weightGroupName, false, fun _ => some 1⟩]
    shape_keys := none }

/-- A single-vertex target away from the source plane, carrying an all-one
mask group. -/
def c2Target : MeshData :=
  { verts := [⟨0, 0, 7⟩]
    faces := []
    selected := [0]
    vertex_groups := [⟨maskGroupName, false, fun j => if j = 0 then some 1 else none⟩]
    shape_keys := none }

/-- The C2 scenario: projection-based transfer onto `c2Target` with an
all-one mask; the oracle reports the nearest surface point of the single
target vertex, corner A of the source triangle. -/
def c2State : XferState :=
  { source := srcShapeMesh
    target := c2Target
    search_method := closestMethod
    vertex_group := some maskGroupName
    invert_vertex_group := false
    restrict_to_selection := false
    exclude_locked_groups := false
    exclude_muted_shapekeys := false
    nearest := fun _ => some (⟨0, 0, 0⟩, 0) }

deriving instance DecidableEq for Except

theorem zipWith3L_length {α β γ δ : Type} (f : α → β → γ → δ) :
    ∀ (la : List α) (lb : List β) (lc : List γ),
      (zipWith3L f la lb lc).length = min (min la.length lb.length) lc.length
  | [], _, _ => by simp [zipWith3L]
  | _ :: _, [], _ => by simp [zipWith3L]
  | _ :: _, _ :: _, [] => by simp [zipWith3L]
  | a :: la, b :: lb, c :: lc => by
    simp only [zipWith3L, List.length_cons, zipWith3L_length f la lb lc]
    omega

theorem zipWith3L_getD {α β γ δ : Type} (f : α → β → γ → δ) :
    ∀ (la : List α) (lb : List β) (lc : List γ) (i : Nat),
      i < la.length → i < lb.length → i < lc.length →
      ∀ (da : α) (db : β) (dc : γ) (dd : δ),
      (zipWith3L f la lb lc).getD i dd = f (la.getD i da) (lb.getD i db) (lc.getD i dc)
  | [], _, _, _, ha, _, _ => by simp at ha
  | _ :: _, [], _, _, _, hb, _ => by simp at hb
  | _ :: _, _ :: _, [], _, _, _, hc => by simp at hc
  | a :: la, b :: lb, c :: lc, 0, _, _, _ => by
    intro da db dc dd
    simp [zipWith3L]
  | a :: la, b :: lb, c :: lc, i + 1, ha, hb, hc => by
    intro da db dc dd
    simp only [zipWith3L, List.getD_cons_succ]
    exact zipWith3L_getD f la lb lc i (by simpa using ha) (by simpa using hb)
      (by simpa using hc) da db dc dd

theorem zipWith_getD {α β δ : Type} (f : α → β → δ) :
    ∀ (la : List α) (lb : List β) (i : Nat),
      i < la.length → i < lb.length →
      ∀ (da : α) (db : β) (dd : δ),
      (List.zipWith f la lb).getD i dd = f (la.getD i da) (lb.getD i db)
  | [], _, _, ha, _ => by simp at ha
  | _ :: _, [], _, _, hb => by simp at hb
  | a :: la, b :: lb, 0, _, _ => by
    intro da db dd
    simp
  | a :: la, b :: lb, i + 1, ha, hb => by
    intro da db dd
    simp only [List.zipWith_cons_cons, List.getD_cons_succ]
    exact zipWith_getD f la lb i (by simpa using ha) (by simpa using hb) da db dd

theorem map_getD {α δ : Type} (f : α → δ) :
    ∀ (la : List α) (i : Nat), i < la.length → ∀ (da : α) (dd : δ),
      (la.map f).getD i dd = f (la.getD i da)
  | [], _, ha => by simp at ha
  | a :: la, 0, _ => by
    intro da dd
    simp
  | a :: la, i + 1, ha => by
    intro da dd
    simp only [List.map_cons, List.getD_cons_succ]
    exact map_getD f la i (by simpa using ha) da dd

/-- The projection record the cache holds for target vertex `i`
(proof-side accessor). -/
def XferState.projAt (st : XferState) (i : Nat) : Projection :=
  cast_vert st.source st.nearest (st.target.verts.getD i Vec3.zero)

theorem cast_verts_length (st : XferState) :
    st.cast_verts.length = st.target.verts.length := by
  simp [XferState.cast_verts]

theorem cast_verts_getD (st : XferState) (i : Nat) (hi : i < st.target.verts.length)
    (d : Projection) : st.cast_verts.getD i d = st.projAt i := by
  rw [XferState.cast_verts, map_getD (cast_vert st.source st.nearest) st.target.verts i hi
    Vec3.zero d]
  rfl

theorem cache_hit_faces_length (st : XferState) :
    st.ensure_projection_cache.hit_faces.length = st.target.verts.length := by
  simp [XferState.ensure_projection_cache, cast_verts_length]

theorem cache_missed_length (st : XferState) :
    st.ensure_projection_cache.missed_projections.length = st.target.verts.length := by
  simp [XferState.ensure_projection_cache, cast_verts_length]

theorem cache_related_length (st : XferState) :
    st.ensure_projection_cache.related_ids.length = st.target.verts.length := by
  simp [XferState.ensure_projection_cache, cast_verts_length]

theorem cache_ray_length (st : XferState) :
    st.ensure_projection_cache.ray_casted.length = st.target.verts.length := by
  simp [XferState.ensure_projection_cache, cast_verts_length]

theorem cache_bary_length (st : XferState) :
    st.ensure_projection_cache.barycentric_coords.length = st.target.verts.length := by
  simp [XferState.ensure_projection_cache, cast_verts_length]

theorem cache_ray_getD (st : XferState) (i : Nat) (hi : i < st.target.verts.length) :
    st.ensure_projection_cache.ray_casted.getD i Vec3.zero = (st.projAt i).ray_casted := by
  rw [XferState.ensure_projection_cache]
  have h := cast_verts_length st
  rw [map_getD (fun p => p.ray_casted) st.cast_verts i (by omega) default Vec3.zero,
    cast_verts_getD st i hi default]

theorem cache_hit_faces_getD (st : XferState) (i : Nat) (hi : i < st.target.verts.length) :
    st.ensure_projection_cache.hit_faces.getD i zeroTri = (st.projAt i).hit_face := by
  rw [XferState.ensure_projection_cache]
  have h := cast_verts_length st
  rw [map_getD (fun p => p.hit_face) st.cast_verts i (by omega) default zeroTri,
    cast_verts_getD st i hi default]

theorem cache_related_getD (st : XferState) (i : Nat) (hi : i < st.target.verts.length) :
    st.ensure_projection_cache.related_ids.getD i (0, 0, 0) = (st.projAt i).related_ids := by
  rw [XferState.ensure_projection_cache]
  have h := cast_verts_length st
  rw [map_getD (fun p => p.related_ids) st.cast_verts i (by omega) default (0, 0, 0),
    cast_verts_getD st i hi default]

theorem cache_missed_getD (st : XferState) (i : Nat) (hi : i < st.target.verts.length) :
    st.ensure_projection_cache.missed_projections.getD i true = (st.projAt i).missed := by
  rw [XferState.ensure_projection_cache]
  have h := cast_verts_length st
  rw [map_getD (fun p => p.missed) st.cast_verts i (by omega) default true,
    cast_verts_getD st i hi default]

theorem cache_bary_getD (st : XferState) (i : Nat) (hi : i < st.target.verts.length) :
    st.ensure_projection_cache.barycentric_coords.getD i none =
      get_barycentric_coords (st.projAt i).ray_casted (st.projAt i).hit_face := by
  rw [XferState.ensure_projection_cache]
  have h := cast_verts_length st
  rw [zipWith_getD get_barycentric_coords _ _ i (by simp; omega) (by simp; omega)
    Vec3.zero zeroTri none]
  rw [map_getD (fun p => p.ray_casted) st.cast_verts i (by omega) default Vec3.zero,
    map_getD (fun p => p.hit_face) st.cast_verts i (by omega) default zeroTri,
    cast_verts_getD st i hi default]

/-- C1: for every target vertex whose projection is non-missed and whose hit
triangle is non-degenerate (nonzero solving denominator), the barycentric
weights computed by `get_barycentric_coords` sum to exactly 1, and
interpolating the hit triangle's three corner positions with them via
`calculate_barycentric_location` reproduces the recorded hit point exactly
(hence within the claimed 1e-4 tolerance).  `honplane` is the Projection
Record invariant: a non-missed hit point returned by the BVH query lies on
its hit triangle. -/
theorem claim_C1 (st : XferState)
    (honplane : ∀ i, i < st.target.verts.length → ∀ p fi,
      st.nearest (st.target.verts.getD i Vec3.zero) = some (p, fi) →
      ∃ a b : ℚ, p = tri_plane_pt (triOfFace st.source (st.source.faces.getD fi (0, 0, 0))) a b)
    (i : Nat) (hi : i < st.target.verts.length)
    (hmiss : st.ensure_projection_cache.missed_projections.getD i true = false)
    (hden : baryDenom (st.ensure_projection_cache.hit_faces.getD i zeroTri) ≠ 0) :
    ∃ u v w : ℚ,
      st.ensure_projection_cache.barycentric_coords.getD i none = some (u, v, w) ∧
      u + v + w = 1 ∧
      calculate_barycentric_location (st.ensure_projection_cache.hit_faces.getD i zeroTri)
        (u, v, w) = st.ensure_projection_cache.ray_casted.getD i Vec3.zero := by
  rw [cache_missed_getD st i hi] at hmiss
  rw [cache_hit_faces_getD st i hi] at hden ⊢
  rw [cache_bary_getD st i hi, cache_ray_getD st i hi]
  rcases hn : st.nearest (st.target.verts.getD i Vec3.zero) with _ | ⟨p, fi⟩
  · rw [XferState.projAt, cast_vert, hn] at hmiss
    simp at hmiss
  · obtain ⟨a, b, hp⟩ := honplane i hi p fi hn
    have hproj : st.projAt i =
        { ray_casted := p,
          hit_face := triOfFace st.source (st.source.faces.getD fi (0, 0, 0)),
          related_ids := st.source.faces.getD fi (0, 0, 0), missed := false } := by
      rw [XferState.projAt, cast_vert, hn]
    rw [hproj] at hden ⊢
    refine ⟨1 - a - b, a, b, ?_, by ring, ?_⟩
    · rw [hp]
      exact get_barycentric_coords_plane_pt _ a b hden
    · rw [hp]
      exact calculate_barycentric_location_plane_pt _ a b

/-- Plain triangle source mesh with no groups and no shape keys. -/
def srcTriMesh : MeshData :=
  { verts := triVerts
    faces := [(0, 1, 2)]
    selected := [0, 0, 0]
    vertex_groups := []
    shape_keys := none }

/-- Single-vertex target sitting at the source triangle's centroid (a point
of the triangle's plane). -/
def c1Target : MeshData :=
  { verts := [⟨1/3, 1/3, 0⟩]
    faces := []
    selected := [0]
    vertex_groups := []
    shape_keys := none }

/-- C1 witness state: the oracle reports the query point itself (it lies on
the source triangle) with face 0. -/
def c1State : XferState :=
  { source := srcTriMesh
    target := c1Target
    search_method := closestMethod
    vertex_group := none
    invert_vertex_group := false
    restrict_to_selection := false
    exclude_locked_groups := false
    exclude_muted_shapekeys := false
    nearest := fun q => some (q, 0) }

/-- C1 witness: at the concrete state `c1State`, vertex 0 is non-missed with
a non-degenerate hit triangle, and `claim_C1` yields weights summing to 1
that reproduce the hit point. -/
theorem claim_C1_witness :
    (0 < c1State.target.verts.length ∧
      c1State.ensure_projection_cache.missed_projections.getD 0 true = false ∧
      baryDenom (c1State.ensure_projection_cache.hit_faces.getD 0 zeroTri) ≠ 0) ∧
    (∃ u v w : ℚ,
      c1State.ensure_projection_cache.barycentric_coords.getD 0 none = some (u, v, w) ∧
      u + v + w = 1 ∧
      calculate_barycentric_location (c1State.ensure_projection_cache.hit_faces.getD 0 zeroTri)
        (u, v, w) = c1State.ensure_projection_cache.ray_casted.getD 0 Vec3.zero) := by
  have honplane : ∀ i, i < c1State.target.verts.length → ∀ p fi,
      c1State.nearest (c1State.target.verts.getD i Vec3.zero) = some (p, fi) →
      ∃ a b : ℚ, p = tri_plane_pt (triOfFace c1State.source
        (c1State.source.faces.getD fi (0, 0, 0))) a b := by
    intro i hi p fi h
    have hi0 : i = 0 := by
      have : c1State.target.verts.length = 1 := by with_unfolding_all decide
      omega
    subst hi0
    have hp : p = c1State.target.verts.getD 0 Vec3.zero ∧ fi = 0 := by
      have h2 := Option.some.inj h
      exact ⟨(congrArg Prod.fst h2).symm, (congrArg Prod.snd h2).symm⟩
    obtain ⟨hp1, hp2⟩ := hp
    subst hp1; subst hp2
    exact ⟨1/3, 1/3, by with_unfolding_all decide⟩
  refine ⟨⟨by with_unfolding_all decide, by with_unfolding_all decide,
    by with_unfolding_all decide⟩, ?_⟩
  exact claim_C1 c1State honplane 0 (by with_unfolding_all decide)
    (by with_unfolding_all decide) (by with_unfolding_all decide)

theorem near_zero_area_zeroTri : near_zero_area zeroTri = true := by
  with_unfolding_all decide

theorem projAt_missed_hit_face {st : XferState} {i : Nat}
    (h : (st.projAt i).missed = true) : (st.projAt i).hit_face = zeroTri := by
  rcases hn : st.nearest (st.target.verts.getD i Vec3.zero) with _ | ⟨p, fi⟩
  · rw [XferState.projAt, cast_vert, hn]
  · rw [XferState.projAt, cast_vert, hn] at h
    simp at h

/-- Source with no faces at all: every cast misses. -/
def c7Source : MeshData :=
  { verts := [], faces := [], selected := [], vertex_groups := [], shape_keys := none }

def c7Target : MeshData :=
  { verts := [⟨3, 3, 3⟩], faces := [], selected := [0], vertex_groups := [], shape_keys := none }

/-- C7 counterexample state: the BVH of a faceless source returns no hit. -/
def c7State : XferState :=
  { source := c7Source
    target := c7Target
    search_method := closestMethod
    vertex_group := none
    invert_vertex_group := false
    restrict_to_selection := false
    exclude_locked_groups := false
    exclude_muted_shapekeys := false
    nearest := fun _ => none }

/-- C7 counterexample: in `c7State` the single target vertex misses, so no
vertex is non-missed with a degenerate hit triangle, yet the
"has zero-area hits" boolean is true (the missed row's zero-initialized
triangle is degenerate and `check_zero_area_triangles` scans every row).
This refutes the claimed "if and only if". -/
theorem claim_C7_counterexample :
    c7State.ensure_projection_cache.has_zero_area_faces = true ∧
    ¬ (∃ i, i < c7State.target.verts.length ∧
        c7State.ensure_projection_cache.missed_projections.getD i true = false ∧
        near_zero_area (c7State.ensure_projection_cache.hit_faces.getD i zeroTri) = true) := by
  constructor
  · with_unfolding_all decide
  · rintro ⟨i, hi, hmiss, _⟩
    have h1 : c7State.target.verts.length = 1 := by with_unfolding_all decide
    have hi0 : i = 0 := by omega
    subst hi0
    revert hmiss
    with_unfolding_all decide

/-- C7 amended: after the cache is built, `has_zero_area_faces` is true iff
at least one row of the hit-triangle array is near-degenerate — that is,
iff some target vertex either missed (its hit-triangle row stays the
all-zero, hence degenerate, triangle) or is non-missed with a hit triangle
whose edge-vector cross product has near-zero magnitude. -/
theorem claim_C7_amended (st : XferState) :
    st.ensure_projection_cache.has_zero_area_faces = true ↔
      ∃ i, i < st.target.verts.length ∧
        (st.ensure_projection_cache.missed_projections.getD i true = true ∨
          (st.ensure_projection_cache.missed_projections.getD i true = false ∧
            near_zero_area (st.ensure_projection_cache.hit_faces.getD i zeroTri) = true)) := by
  have hlen : st.ensure_projection_cache.hit_faces.length = st.target.verts.length :=
    cache_hit_faces_length st
  constructor
  · intro h
    have h2 : ∃ x ∈ st.ensure_projection_cache.hit_faces, near_zero_area x = true := by
      simpa [XferState.ensure_projection_cache, check_zero_area_triangles,
        List.any_eq_true] using h
    obtain ⟨x, hx, hnear⟩ := h2
    obtain ⟨i, hilt, hieq⟩ := List.mem_iff_getElem.mp hx
    have hi : i < st.target.verts.length := by omega
    have hgetD : st.ensure_projection_cache.hit_faces.getD i zeroTri = x := by
      rw [List.getD_eq_getElem _ _ hilt, hieq]
    refine ⟨i, hi, ?_⟩
    rcases hm : st.ensure_projection_cache.missed_projections.getD i true with _ | _
    · exact Or.inr ⟨rfl, by rw [hgetD]; exact hnear⟩
    · exact Or.inl rfl
  · rintro ⟨i, hi, hcase⟩
    have hne : near_zero_area (st.ensure_projection_cache.hit_faces.getD i zeroTri) = true := by
      rcases hcase with hm | ⟨_, hnear⟩
      · rw [cache_missed_getD st i hi] at hm
        rw [cache_hit_faces_getD st i hi, projAt_missed_hit_face hm]
        exact near_zero_area_zeroTri
      · exact hnear
    have hilt : i < st.ensure_projection_cache.hit_faces.length := by omega
    have hmem : st.ensure_projection_cache.hit_faces.getD i zeroTri ∈
        st.ensure_projection_cache.hit_faces := by
      rw [List.getD_eq_getElem _ _ hilt]
      exact List.getElem_mem hilt
    have : st.ensure_projection_cache.hit_faces.any near_zero_area = true :=
      List.any_eq_true.mpr ⟨_, hmem, hne⟩
    simpa [XferState.ensure_projection_cache, check_zero_area_triangles,
      XferState.cast_verts] using this

/-- C8: when the source has no eligible shape keys (`None` shape keys, or
only Basis / only muted ones), `transfer_shape_keys` returns `False`
without raising and without touching the target; likewise
`transfer_vertex_groups` when the source has no (non-excluded) vertex
groups — a missing attribute is a no-op, not an error. -/
theorem claim_C8 (st : XferState) :
    ((st.source.get_shape_keys_vert_pos st.exclude_muted_shapekeys).getD [] = [] →
      st.transfer_shape_keys = (st.target, Except.ok false)) ∧
    ((st.source.get_vertex_groups_names st.exclude_locked_groups).getD [] = [] →
      st.transfer_vertex_groups = (st.target, Except.ok false)) := by
  constructor
  · intro h
    rcases hs : st.source.get_shape_keys_vert_pos st.exclude_muted_shapekeys with _ | l
    · rw [XferState.transfer_shape_keys, hs]
    · rw [hs] at h
      simp only [Option.getD_some] at h
      subst h
      rw [XferState.transfer_shape_keys, hs]
      rfl
  · intro h
    rcases hs : st.source.get_vertex_groups_names st.exclude_locked_groups with _ | l
    · rw [XferState.transfer_vertex_groups, hs]
    · rw [hs] at h
      simp only [Option.getD_some] at h
      subst h
      rw [XferState.transfer_vertex_groups, hs]
      rfl

/-- C8 witness: at `c7State` the source has neither shape keys nor vertex
groups, and both transfers return `(target unchanged, ok false)`. -/
theorem claim_C8_witness :
    ((c7State.source.get_shape_keys_vert_pos c7State.exclude_muted_shapekeys).getD [] = [] ∧
      c7State.transfer_shape_keys = (c7State.target, Except.ok false)) ∧
    ((c7State.source.get_vertex_groups_names c7State.exclude_locked_groups).getD [] = [] ∧
      c7State.transfer_vertex_groups = (c7State.target, Except.ok false)) := by
  refine ⟨⟨by with_unfolding_all decide, (claim_C8 c7State).1 (by with_unfolding_all decide)⟩,
    ⟨by with_unfolding_all decide, (claim_C8 c7State).2 (by with_unfolding_all decide)⟩⟩

theorem writeWeights_name : ∀ (l : List ℚ) (g : VGroup) (s : Nat),
    (writeWeights g s l).name = g.name
  | [], _, _ => rfl
  | v :: rest, g, s => by
    rw [writeWeights, writeWeights_name rest _ (s + 1)]
    by_cases hv : v > 0
    · rw [if_pos hv]; rfl
    · rw [if_neg hv]

theorem writeWeights_weight_unchanged :
    ∀ (l : List ℚ) (g : VGroup) (s j : Nat),
      (∀ k, (hk : k < l.length) → s + k = j → l.get ⟨k, hk⟩ ≤ 0) →
      (writeWeights g s l).weight j = g.weight j
  | [], _, _, _, _ => rfl
  | v :: rest, g, s, j, h => by
    rw [writeWeights, writeWeights_weight_unchanged rest _ (s + 1) j ?hrest]
    case hrest =>
      intro k hk hsk
      exact h (k + 1) (by simpa using hk) (by omega)
    by_cases hv : v > 0
    · rw [if_pos hv, VGroup.addReplace]
      by_cases hj : j = s
      · exfalso
        have hle := h 0 (by simp) (by omega)
        simp only [List.get] at hle
        exact absurd hv (by simpa using not_lt.mpr hle)
      · simp only []
        rw [if_neg hj]
    · rw [if_neg hv]

theorem find_updateFirstGroup (f : VGroup → VGroup) (n : String)
    (hf : ∀ g, (f g).name = g.name) :
    ∀ gs : List VGroup, (updateFirstGroup f n gs).find? (fun g => g.name == n) =
      (gs.find? fun g => g.name == n).map f
  | [] => rfl
  | g :: gs => by
    rw [updateFirstGroup]
    by_cases hg : (g.name == n) = true
    · rw [if_pos hg]
      have h1 : ((f g).name == n) = true := by rw [hf g]; exact hg
      simp only [List.find?_cons, h1, hg, cond_true]
      rfl
    · have hg2 : (g.name == n) = false := by simpa using hg
      rw [if_neg hg]
      simp only [List.find?_cons, hg2, cond_false]
      exact find_updateFirstGroup f n hf gs

theorem find?_append_of_none {α : Type} (p : α → Bool) :
    ∀ (l1 l2 : List α), l1.find? p = none → (l1 ++ l2).find? p = l2.find? p
  | [], _, _ => rfl
  | a :: l1, l2, h => by
    rcases hpa : p a with _ | _
    · rw [List.find?_cons, hpa] at h
      rw [List.cons_append, List.find?_cons, hpa]
      exact find?_append_of_none p l1 l2 h
    · rw [List.find?_cons, hpa] at h
      exact absurd h (Option.some_ne_none a)

theorem set_vertex_group_weights_le_zero_unchanged (m : MeshData) (group_name : String)
    (weights : List ℚ) (i : Nat)
    (hi : i < weights.length) (hle : weights.get ⟨i, hi⟩ ≤ 0) :
    (m.set_vertex_group_weights group_name weights).groupWeightEntry group_name i =
      m.groupWeightEntry group_name i := by
  have hcond : ∀ k, (hk : k < weights.length) → 0 + k = i → weights.get ⟨k, hk⟩ ≤ 0 := by
    intro k hk h0k
    have hki : k = i := by omega
    subst hki
    exact hle
  have hww := fun g => writeWeights_weight_unchanged weights g 0 i hcond
  have hfind := find_updateFirstGroup (fun g => writeWeights g 0 weights) group_name
    (fun g => writeWeights_name weights g 0)
  rw [MeshData.set_vertex_group_weights]
  by_cases hex : (m.vertex_groups.find? fun g => g.name == group_name).isSome
  · rw [if_pos hex]
    rw [MeshData.groupWeightEntry, MeshData.groupWeightEntry]
    dsimp only
    rw [hfind m.vertex_groups]
    rcases hf : m.vertex_groups.find? (fun g => g.name == group_name) with _ | g
    · rw [hf]
      rfl
    · rw [hf]
      simp only [Option.map_some', Option.some_bind]
      exact hww g
  · rw [if_neg hex]
    rw [MeshData.groupWeightEntry, MeshData.groupWeightEntry]
    dsimp only
    have hnone : m.vertex_groups.find? (fun g => g.name == group_name) = none :=
      Option.not_isSome_iff_eq_none.mp hex
    have hfind2 := hfind (m.vertex_groups ++
      [{ name := group_name, lock_weight := false, weight := fun _ => none }])
    rw [hfind2, find?_append_of_none _ _ _ hnone, hnone]
    simp only [List.find?_cons, beq_self_eq_true, cond_true, Option.map_some',
      Option.some_bind, Option.none_bind]
    exact hww ⟨group_name, false, fun _ => none⟩

/-- C10: `set_vertex_group_weights` writes only strictly positive values:
for a vertex whose computed weight is ≤ 0 no write happens, so the sparse
weight previously stored for that vertex in the target group (or its
absence) is left unchanged. -/
theorem claim_C10 (m : MeshData) (group_name : String) (weights : List ℚ) (i : Nat)
    (hi : i < weights.length) (hle : weights.get ⟨i, hi⟩ ≤ 0) :
    (m.set_vertex_group_weights group_name weights).groupWeightEntry group_name i =
      m.groupWeightEntry group_name i :=
  set_vertex_group_weights_le_zero_unchanged m group_name weights i hi hle

/-- Mesh for the C10 witness: one group holding weight 3/4 at vertex 0. -/
def c10Mesh : MeshData :=
  { verts := [⟨0, 0, 0⟩]
    faces := []
    selected := [0]
    vertex_groups := [⟨weightGroupName, false, fun j => if j = 0 then some (3/4) else none⟩]
    shape_keys := none }

/-- C10 witness: writing the weight array `[0]` leaves the pre-existing
sparse weight 3/4 at vertex 0 untouched. -/
theorem claim_C10_witness :
    (0 < ([(0 : ℚ)]).length ∧ ([(0 : ℚ)]).get ⟨0, by decide⟩ ≤ 0) ∧
    (c10Mesh.set_vertex_group_weights weightGroupName [0]).groupWeightEntry weightGroupName 0 =
      c10Mesh.groupWeightEntry weightGroupName 0 ∧
    c10Mesh.groupWeightEntry weightGroupName 0 = some (3/4) := by
  refine ⟨⟨by decide, by with_unfolding_all decide⟩,
    claim_C10 c10Mesh weightGroupName [0] 0 (by decide) (by with_unfolding_all decide),
    by with_unfolding_all decide⟩

def topologySourceMesh : MeshData :=
  { verts := [⟨0, 0, 0⟩], faces := [], selected := [0], vertex_groups := [], shape_keys := none }

def topologyTargetMesh : MeshData :=
  { verts := [⟨0, 0, 0⟩, ⟨1, 1, 1⟩], faces := [], selected := [0, 0], vertex_groups := [],
    shape_keys := none }

/-- C4 counterexample state: TOPOLOGY mode, 1-vertex source vs 2-vertex
target, and a source with no vertex groups. -/
def c4State : XferState :=
  { source := topologySourceMesh
    target := topologyTargetMesh
    search_method := topologyMethod
    vertex_group := none
    invert_vertex_group := false
    restrict_to_selection := false
    exclude_locked_groups := false
    exclude_muted_shapekeys := false
    nearest := fun _ => none }

/-- C4 counterexample: a TOPOLOGY-mode invocation with mismatched vertex
counts (1 vs 2) on a source without vertex groups makes
`transfer_vertex_groups` return `ok False` — the empty-source check runs
before `_topology_validate`, so this transfer operation does NOT raise,
refuting "every transfer operation ... raises an error". -/
theorem claim_C4_counterexample :
    c4State.search_method = topologyMethod ∧
    c4State.source.v_count ≠ c4State.target.v_count ∧
    c4State.transfer_vertex_groups.2 = Except.ok false ∧
    c4State.transfer_vertex_groups.1 = c4State.target := by
  refine ⟨rfl, by with_unfolding_all decide, by with_unfolding_all decide, rfl⟩

/-- C4 amended: in TOPOLOGY mode with mismatched vertex counts,
`transfer_vertex_position` always raises the topology error (whose message
names both counts) with the target untouched; `transfer_vertex_groups` and
`transfer_shape_keys` raise it exactly when the source has at least one
eligible group / shape key, and otherwise return `False`; in every case no
write to the target is performed. -/
theorem claim_C4_amended (st : XferState) (as_shape_key : Bool)
    (htop : st.search_method = topologyMethod)
    (hcount : st.source.v_count ≠ st.target.v_count) :
    st.transfer_vertex_position as_shape_key =
      (st.target, Except.error (topologyErrorMsg st.source.v_count st.target.v_count)) ∧
    ((st.source.get_vertex_groups_names st.exclude_locked_groups).getD [] ≠ [] →
      st.transfer_vertex_groups =
        (st.target, Except.error (topologyErrorMsg st.source.v_count st.target.v_count))) ∧
    ((st.source.get_vertex_groups_names st.exclude_locked_groups).getD [] = [] →
      st.transfer_vertex_groups = (st.target, Except.ok false)) ∧
    ((st.source.get_shape_keys_vert_pos st.exclude_muted_shapekeys).getD [] ≠ [] →
      st.transfer_shape_keys =
        (st.target, Except.error (topologyErrorMsg st.source.v_count st.target.v_count))) ∧
    ((st.source.get_shape_keys_vert_pos st.exclude_muted_shapekeys).getD [] = [] →
      st.transfer_shape_keys = (st.target, Except.ok false)) ∧
    (∃ pre mid post : String, topologyErrorMsg st.source.v_count st.target.v_count =
      pre ++ toString st.source.v_count ++ mid ++ toString st.target.v_count ++ post) := by
  refine ⟨?_, ?_, ?_, ?_, ?_, ?_⟩
  · rw [XferState.transfer_vertex_position]
    rw [if_pos htop, if_pos hcount]
  · intro hne
    rcases hs : st.source.get_vertex_groups_names st.exclude_locked_groups with _ | l
    · rw [hs] at hne
      simp at hne
    · rw [hs] at hne
      simp only [Option.getD_some] at hne
      rw [XferState.transfer_vertex_groups, hs]
      dsimp only
      rw [if_neg (by simpa using hne), if_pos ⟨htop, hcount⟩]
  · intro he
    rcases hs : st.source.get_vertex_groups_names st.exclude_locked_groups with _ | l
    · rw [XferState.transfer_vertex_groups, hs]
    · rw [hs] at he
      simp only [Option.getD_some] at he
      subst he
      rw [XferState.transfer_vertex_groups, hs]
      rfl
  · intro hne
    rcases hs : st.source.get_shape_keys_vert_pos st.exclude_muted_shapekeys with _ | l
    · rw [hs] at hne
      simp at hne
    · rw [hs] at hne
      simp only [Option.getD_some] at hne
      rw [XferState.transfer_shape_keys, hs]
      dsimp only
      rw [if_neg (by simpa using hne), if_pos ⟨htop, hcount⟩]
  · intro he
    rcases hs : st.source.get_shape_keys_vert_pos st.exclude_muted_shapekeys with _ | l
    · rw [XferState.transfer_shape_keys, hs]
    · rw [hs] at he
      simp only [Option.getD_some] at he
      subst he
      rw [XferState.transfer_shape_keys, hs]
      rfl
  · refine ⟨"Topology transfer requires identical vertex counts. Source: ", ", Target: ", "", ?_⟩
    rw [topologyErrorMsg]
    simp

/-- C4 witness: at the concrete `c4State`, `transfer_vertex_position`
raises the topology error naming both counts, leaving the target as it was. -/
theorem claim_C4_witness :
    (c4State.search_method = topologyMethod ∧
      c4State.source.v_count ≠ c4State.target.v_count) ∧
    c4State.transfer_vertex_position false =
      (c4State.target,
        Except.error (topologyErrorMsg c4State.source.v_count c4State.target.v_count)) := by
  refine ⟨⟨rfl, by with_unfolding_all decide⟩,
    (claim_C4_amended c4State false rfl (by with_unfolding_all decide)).1⟩

theorem Vec3.blend_self (m : ℚ) (u : Vec3) : m • u + (1 - m) • u = u := by
  obtain ⟨u1, u2, u3⟩ := u
  simp only [Vec3.smul_def, Vec3.add_def, Vec3.mk.injEq]
  refine ⟨by ring, by ring, by ring⟩

/-- A near-degenerate row of `hit_faces` forces the global flag. -/
theorem flag_true_of_near_row (st : XferState) (i : Nat) (hi : i < st.target.verts.length)
    (h : near_zero_area (st.ensure_projection_cache.hit_faces.getD i zeroTri) = true) :
    st.ensure_projection_cache.has_zero_area_faces = true := by
  have hlen : st.ensure_projection_cache.hit_faces.length = st.target.verts.length :=
    cache_hit_faces_length st
  have hilt : i < st.ensure_projection_cache.hit_faces.length := by omega
  have hmem : st.ensure_projection_cache.hit_faces.getD i zeroTri ∈
      st.ensure_projection_cache.hit_faces := by
    rw [List.getD_eq_getElem _ _ hilt]
    exact List.getElem_mem hilt
  have hany : st.ensure_projection_cache.hit_faces.any near_zero_area = true :=
    List.any_eq_true.mpr ⟨_, hmem, h⟩
  simpa [XferState.ensure_projection_cache, check_zero_area_triangles,
    XferState.cast_verts] using hany

/-- A NaN barycentric row forces the global zero-area flag (its hit triangle
has a zero denominator, hence a zero-magnitude cross product). -/
theorem flag_true_of_bary_none (st : XferState) (i : Nat) (hi : i < st.target.verts.length)
    (h : st.ensure_projection_cache.barycentric_coords.getD i none = none) :
    st.ensure_projection_cache.has_zero_area_faces = true := by
  rw [cache_bary_getD st i hi] at h
  have hden := (get_barycentric_coords_eq_none_iff _ _).mp h
  refine flag_true_of_near_row st i hi ?_
  rw [cache_hit_faces_getD st i hi]
  exact near_zero_area_of_baryDenom_eq_zero hden

theorem get_transferred_length (st : XferState) (coords : List Vec3) :
    (get_transferred_vert_coords st.ensure_projection_cache coords).length =
      st.target.verts.length := by
  rw [get_transferred_vert_coords, List.length_zipWith, cache_related_length st,
    cache_bary_length st]
  omega

theorem get_transferred_getD (st : XferState) (coords : List Vec3) (i : Nat)
    (hi : i < st.target.verts.length) :
    (get_transferred_vert_coords st.ensure_projection_cache coords).getD i none =
      (st.ensure_projection_cache.barycentric_coords.getD i none).map
        (fun bc => calculate_barycentric_location
          (triOfIds coords (st.ensure_projection_cache.related_ids.getD i (0, 0, 0))) bc) := by
  have h1 := cache_related_length st
  have h2 := cache_bary_length st
  rw [get_transferred_vert_coords,
    zipWith_getD _ _ _ i (by omega) (by omega) (0, 0, 0) none none]

theorem get_vertices_mask_length (st : XferState)
    (hsel : st.target.selected.length = st.target.verts.length)
    (m : List ℚ) (h : st.get_vertices_mask = some m) :
    m.length = st.target.verts.length := by
  rw [XferState.get_vertices_mask] at h
  rcases hvg : st.vertex_group with _ | vg
  · rw [hvg] at h
    dsimp only at h
    by_cases hres : st.restrict_to_selection
    · rw [if_pos hres] at h
      simp only [Option.some.injEq] at h
      rw [← h]
      exact hsel
    · rw [if_neg hres] at h
      exact absurd h (by simp)
  · rw [hvg] at h
    dsimp only at h
    rcases hw : st.target.get_vertex_group_weights vg with _ | w
    · rw [hw] at h
      by_cases hres : st.restrict_to_selection
      · rw [if_pos hres] at h
        simp only [Option.some.injEq] at h
        rw [← h]
        exact hsel
      · rw [if_neg hres] at h
        exact absurd h (by simp)
    · have hwlen : w.length = st.target.verts.length := by
        rw [MeshData.get_vertex_group_weights] at hw
        rcases hf : st.target.vertex_groups.find? (fun g => g.name == vg) with _ | g
        · rw [hf] at hw
          exact absurd hw (by simp)
        · rw [hf] at hw
          simp only [Option.map_some', Option.some.injEq] at hw
          rw [← hw]
          simp [MeshData.v_count]
      rw [hw] at h
      dsimp only at h
      by_cases hres : st.restrict_to_selection
      · rw [if_pos hres] at h
        by_cases hinv : st.invert_vertex_group
        · rw [if_pos hinv] at h
          dsimp only at h
          simp only [Option.some.injEq] at h
          rw [← h]
          simp [List.length_zipWith, hwlen, hsel, MeshData.get_selected_verts]
        · rw [if_neg hinv] at h
          dsimp only at h
          simp only [Option.some.injEq] at h
          rw [← h]
          simp [List.length_zipWith, hwlen, hsel, MeshData.get_selected_verts]
      · rw [if_neg hres] at h
        by_cases hinv : st.invert_vertex_group
        · rw [if_pos hinv] at h
          dsimp only at h
          simp only [Option.some.injEq] at h
          rw [← h]
          simp [hwlen]
        · rw [if_neg hinv] at h
          dsimp only at h
          simp only [Option.some.injEq] at h
          rw [← h]
          exact hwlen

/-- Row analysis of the shared fallback pipeline
interpolate → NaN-replace (when flagged) → missed-replace
(used verbatim by `transfer_vertex_position` and by the
`base_transferred_position` computation of `transfer_shape_keys`):
every row is defined; a missed row, or a NaN row, equals the target's own
undeformed position; a hit row with defined weights is the barycentric
interpolation of the gathered attribute rows. -/
theorem base_pipeline_getD (st : XferState) (coords : List Vec3) (i : Nat)
    (hi : i < st.target.verts.length) :
    ∃ v : Vec3,
      (whereMissed st.ensure_projection_cache.missed_projections st.target.get_verts_position
        (if st.ensure_projection_cache.has_zero_area_faces then
          replace_nan st.target.get_verts_position
            (get_transferred_vert_coords st.ensure_projection_cache coords)
        else get_transferred_vert_coords st.ensure_projection_cache coords)).getD i none
        = some v ∧
      (st.ensure_projection_cache.missed_projections.getD i true = true →
        v = st.target.verts.getD i Vec3.zero) ∧
      (st.ensure_projection_cache.barycentric_coords.getD i none = none →
        v = st.target.verts.getD i Vec3.zero) ∧
      (∀ bc, st.ensure_projection_cache.barycentric_coords.getD i none = some bc →
        st.ensure_projection_cache.missed_projections.getD i true = false →
        v = calculate_barycentric_location
          (triOfIds coords (st.ensure_projection_cache.related_ids.getD i (0, 0, 0))) bc) := by
  have hmis := cache_missed_length st
  have hub : st.target.get_verts_position.length = st.target.verts.length := rfl
  have ht0 := get_transferred_length st coords
  have ht1 : (if st.ensure_projection_cache.has_zero_area_faces then
      replace_nan st.target.get_verts_position
        (get_transferred_vert_coords st.ensure_projection_cache coords)
      else get_transferred_vert_coords st.ensure_projection_cache coords).length =
      st.target.verts.length := by
    by_cases hz : st.ensure_projection_cache.has_zero_area_faces <;>
      simp [hz, replace_nan, List.length_zipWith, ht0, hub]
  have hui : i < st.target.get_verts_position.length := by rw [hub]; exact hi
  have ht0i : i < (get_transferred_vert_coords st.ensure_projection_cache coords).length := by
    rw [ht0]; exact hi
  rw [whereMissed, zipWith3L_getD _ _ _ _ i (by omega) (by omega) (by omega)
    true Vec3.zero none none]
  rcases hmiss : st.ensure_projection_cache.missed_projections.getD i true with _ | _
  · rw [if_neg (show ¬(false = true) by simp)]
    rcases hbary : st.ensure_projection_cache.barycentric_coords.getD i none with _ | bc
    · have hz := flag_true_of_bary_none st i hi hbary
      rw [hz, if_pos rfl, replace_nan, zipWith_getD _ _ _ i hui ht0i
        Vec3.zero none none, get_transferred_getD st coords i hi, hbary]
      exact ⟨st.target.verts.getD i Vec3.zero, rfl, fun _ => rfl, fun _ => rfl,
        fun bc hbc _ => absurd hbc (by simp)⟩
    · have ht0row : (get_transferred_vert_coords st.ensure_projection_cache coords).getD i
          none = some (calculate_barycentric_location
            (triOfIds coords (st.ensure_projection_cache.related_ids.getD i (0, 0, 0))) bc) := by
        rw [get_transferred_getD st coords i hi, hbary]
        rfl
      refine ⟨calculate_barycentric_location
          (triOfIds coords (st.ensure_projection_cache.related_ids.getD i (0, 0, 0))) bc,
        ?_, fun h => absurd h (by simp), fun h => absurd h (by simp), ?_⟩
      · by_cases hz : st.ensure_projection_cache.has_zero_area_faces
        · rw [hz, if_pos rfl, replace_nan, zipWith_getD _ _ _ i hui ht0i
            Vec3.zero none none, ht0row]
        · rw [Bool.not_eq_true] at hz
          rw [hz, if_neg (by simp), ht0row]
      · intro bc2 hbc2 _
        rw [← Option.some.inj hbc2]
  · rw [if_pos rfl]
    exact ⟨st.target.verts.getD i Vec3.zero, rfl, fun _ => rfl, fun _ => rfl,
      fun bc hbc hmf => absurd hmf (by simp)⟩

/-- Rows of the full (mask-blended) position pipeline: every row is defined,
and missed or NaN rows come out as the target's own undeformed position
(which the mask blend maps to itself). -/
theorem transfer_vertex_position_array_getD (st : XferState)
    (hsel : st.target.selected.length = st.target.verts.length)
    (i : Nat) (hi : i < st.target.verts.length) :
    ∃ v : Vec3, (transfer_vertex_position_array st).getD i none = some v ∧
      (st.ensure_projection_cache.missed_projections.getD i true = true →
        v = st.target.verts.getD i Vec3.zero) ∧
      (st.ensure_projection_cache.barycentric_coords.getD i none = none →
        v = st.target.verts.getD i Vec3.zero) := by
  obtain ⟨v, hrow, hm, hn, _⟩ := base_pipeline_getD st st.source.get_verts_position i hi
  rcases hmask : st.get_vertices_mask with _ | mask
  · rw [transfer_vertex_position_array, hmask]
    exact ⟨v, hrow, hm, hn⟩
  · rw [transfer_vertex_position_array, hmask]
    dsimp only
    have hmlen := get_vertices_mask_length st hsel mask hmask
    have hub : st.target.get_verts_position.length = st.target.verts.length := rfl
    have ht2 : (whereMissed st.ensure_projection_cache.missed_projections
        st.target.get_verts_position
        (if st.ensure_projection_cache.has_zero_area_faces then
          replace_nan st.target.get_verts_position
            (get_transferred_vert_coords st.ensure_projection_cache
              st.source.get_verts_position)
        else get_transferred_vert_coords st.ensure_projection_cache
          st.source.get_verts_position)).length = st.target.verts.length := by
      rw [whereMissed, zipWith3L_length]
      have h1 := cache_missed_length st
      have h2 := get_transferred_length st st.source.get_verts_position
      by_cases hz : st.ensure_projection_cache.has_zero_area_faces <;>
        simp [hz, replace_nan, List.length_zipWith, h1, h2, hub]
    rw [mask_blend, zipWith3L_getD _ _ _ _ i (by omega) (by omega) (by omega)
      0 Vec3.zero none none, hrow]
    refine ⟨mask.getD i 0 • v + (1 - mask.getD i 0) • st.target.get_verts_position.getD i
        Vec3.zero, rfl, ?_, ?_⟩
    · intro h
      rw [hm h]
      exact Vec3.blend_self _ _
    · intro h
      rw [hn h]
      exact Vec3.blend_self _ _

/-- C5: in a projection mode, `transfer_vertex_position` never raises — not
for a missed projection nor a zero-area hit triangle: it returns `ok True`,
every missed vertex receives the target's own original position, every
NaN-poisoned (degenerate-triangle) vertex likewise, and the written
position array contains no NaN (every row of the computed array is
defined). -/
theorem claim_C5 (st : XferState) (as_shape_key : Bool)
    (hproj : st.search_method ≠ topologyMethod)
    (hsel : st.target.selected.length = st.target.verts.length) :
    (st.transfer_vertex_position as_shape_key).2 = Except.ok true ∧
    (∀ i, i < st.target.verts.length →
      ((transfer_vertex_position_array st).getD i none).isSome = true) ∧
    (∀ i, i < st.target.verts.length →
      st.ensure_projection_cache.missed_projections.getD i true = true →
      (transfer_vertex_position_array st).getD i none =
        some (st.target.verts.getD i Vec3.zero)) ∧
    (∀ i, i < st.target.verts.length →
      st.ensure_projection_cache.barycentric_coords.getD i none = none →
      (transfer_vertex_position_array st).getD i none =
        some (st.target.verts.getD i Vec3.zero)) := by
  refine ⟨?_, ?_, ?_, ?_⟩
  · rw [XferState.transfer_vertex_position, if_neg hproj]
    by_cases hk : as_shape_key <;> simp [hk]
  · intro i hi
    obtain ⟨v, hrow, _, _⟩ := transfer_vertex_position_array_getD st hsel i hi
    rw [hrow]
    rfl
  · intro i hi h
    obtain ⟨v, hrow, hm, _⟩ := transfer_vertex_position_array_getD st hsel i hi
    rw [hrow, hm h]
  · intro i hi h
    obtain ⟨v, hrow, _, hn⟩ := transfer_vertex_position_array_getD st hsel i hi
    rw [hrow, hn h]

/-- C5 witness: at `c7State` (whose single vertex misses), the transfer
returns `ok True`, the array has no NaN row, and the missed row is the
target's own position. -/
theorem claim_C5_witness :
    (c7State.search_method ≠ topologyMethod ∧
      c7State.target.selected.length = c7State.target.verts.length) ∧
    ((c7State.transfer_vertex_position false).2 = Except.ok true ∧
      (∀ i, i < c7State.target.verts.length →
        ((transfer_vertex_position_array c7State).getD i none).isSome = true) ∧
      (∀ i, i < c7State.target.verts.length →
        c7State.ensure_projection_cache.missed_projections.getD i true = true →
        (transfer_vertex_position_array c7State).getD i none =
          some (c7State.target.verts.getD i Vec3.zero)) ∧
      (∀ i, i < c7State.target.verts.length →
        c7State.ensure_projection_cache.barycentric_coords.getD i none = none →
        (transfer_vertex_position_array c7State).getD i none =
          some (c7State.target.verts.getD i Vec3.zero))) := by
  refine ⟨⟨by with_unfolding_all decide, by with_unfolding_all decide⟩,
    claim_C5 c7State false (by with_unfolding_all decide) (by with_unfolding_all decide)⟩

theorem find?_append_of_some {α : Type} (p : α → Bool) :
    ∀ (l1 l2 : List α) (a : α), l1.find? p = some a → (l1 ++ l2).find? p = some a
  | [], _, _, h => by simp at h
  | b :: l1, l2, a, h => by
    rcases hpb : p b with _ | _
    · rw [List.find?_cons, hpb] at h
      rw [List.cons_append, List.find?_cons, hpb]
      exact find?_append_of_some p l1 l2 a h
    · rw [List.find?_cons, hpb] at h
      rw [List.cons_append, List.find?_cons, hpb]
      exact h

theorem writeWeights_weight_written :
    ∀ (l : List ℚ) (g : VGroup) (s j k : Nat) (hk : k < l.length), s + k = j →
      0 < l.get ⟨k, hk⟩ →
      (writeWeights g s l).weight j = some (l.get ⟨k, hk⟩)
  | [], _, _, _, k, hk => by simp at hk
  | v :: rest, g, s, j, 0, hk => by
    intro hsj hpos
    simp only [List.get] at hpos ⊢
    rw [writeWeights, if_pos hpos,
      writeWeights_weight_unchanged rest _ (s + 1) j (by intro k2 hk2 hk2j; omega)]
    rw [VGroup.addReplace]
    dsimp only
    rw [if_pos (by omega : j = s)]
  | v :: rest, g, s, j, k + 1, hk => by
    intro hsj hpos
    simp only [List.get] at hpos ⊢
    rw [writeWeights]
    exact writeWeights_weight_written rest _ (s + 1) j k (by simpa using hk) (by omega) hpos

theorem find?_name_updateFirstGroup_ne (f : VGroup → VGroup) (wname gname : String)
    (hne : gname ≠ wname) (hf : ∀ g, (f g).name = g.name) :
    ∀ gs : List VGroup, (updateFirstGroup f wname gs).find? (fun g => g.name == gname) =
      gs.find? (fun g => g.name == gname)
  | [] => rfl
  | g :: gs => by
    rw [updateFirstGroup]
    by_cases hg : (g.name == wname) = true
    · rw [if_pos hg]
      have hgname : (g.name == gname) = false := by
        have hgw : g.name = wname := by simpa using hg
        rw [hgw]
        exact beq_eq_false_iff_ne.mpr (Ne.symm hne)
      have hgname2 : ((f g).name == gname) = false := by rw [hf g]; exact hgname
      rw [List.find?_cons, List.find?_cons, hgname, hgname2]
    · rw [if_neg hg]
      rw [List.find?_cons, List.find?_cons]
      rcases hq : (g.name == gname) with _ | _
      · exact find?_name_updateFirstGroup_ne f wname gname hne hf gs
      · rfl

/-- Writing a weight map touches no other group. -/
theorem set_vertex_group_weights_other (m : MeshData) (wname gname : String)
    (hne : gname ≠ wname) (w : List ℚ) (i : Nat) :
    (m.set_vertex_group_weights wname w).groupWeightEntry gname i =
      m.groupWeightEntry gname i := by
  rw [MeshData.set_vertex_group_weights, MeshData.groupWeightEntry, MeshData.groupWeightEntry]
  by_cases hex : (m.vertex_groups.find? fun g => g.name == wname).isSome
  · rw [if_pos hex]
    dsimp only
    rw [find?_name_updateFirstGroup_ne _ wname gname hne (fun g => writeWeights_name w g 0)]
  · rw [if_neg hex]
    dsimp only
    rw [find?_name_updateFirstGroup_ne _ wname gname hne (fun g => writeWeights_name w g 0)]
    rcases hfg : m.vertex_groups.find? (fun g => g.name == gname) with _ | g
    · rw [find?_append_of_none _ _ _ hfg, hfg]
      have hwg : ((wname == gname) = false) := beq_eq_false_iff_ne.mpr (Ne.symm hne)
      rw [List.find?_cons, List.find?_nil, hwg]
    · rw [find?_append_of_some _ _ _ _ hfg, hfg]

/-- Writing a weight map at index `i` with a strictly positive value stores
exactly that value. -/
theorem set_vertex_group_weights_written (m : MeshData) (g : String) (w : List ℚ) (i : Nat)
    (hi : i < w.length) (hpos : 0 < w.get ⟨i, hi⟩) :
    (m.set_vertex_group_weights g w).groupWeightEntry g i = some (w.get ⟨i, hi⟩) := by
  have hww := fun gg => writeWeights_weight_written w gg 0 i i hi (by omega) hpos
  have hfind := find_updateFirstGroup (fun gg => writeWeights gg 0 w) g
    (fun gg => writeWeights_name w gg 0)
  rw [MeshData.set_vertex_group_weights, MeshData.groupWeightEntry]
  by_cases hex : (m.vertex_groups.find? fun gg => gg.name == g).isSome
  · rw [if_pos hex]
    dsimp only
    rw [hfind m.vertex_groups]
    rcases hf : m.vertex_groups.find? (fun gg => gg.name == g) with _ | gg
    · rw [hf] at hex
      simp at hex
    · rw [hf]
      simp only [Option.map_some', Option.some_bind]
      exact hww gg
  · rw [if_neg hex]
    dsimp only
    have hnone : m.vertex_groups.find? (fun gg => gg.name == g) = none :=
      Option.not_isSome_iff_eq_none.mp hex
    have hfind2 := hfind (m.vertex_groups ++
      [{ name := g, lock_weight := false, weight := fun _ => none }])
    rw [hfind2, find?_append_of_none _ _ _ hnone]
    simp only [List.find?_cons, beq_self_eq_true, cond_true, Option.map_some', Option.some_bind]
    exact hww { name := g, lock_weight := false, weight := fun _ => none }

theorem getD_eq_get {α : Type} (l : List α) (i : Nat) (h : i < l.length) (d : α) :
    l.getD i d = l.get ⟨i, h⟩ := by
  rw [List.getD_eq_getElem l d h, List.get_eq_getElem]

theorem transfer_one_group_other (st : XferState) (mask : Option (List ℚ)) (tgt : MeshData)
    (gname other : String) (hne : gname ≠ other) (i : Nat) :
    (transfer_one_group st mask tgt other).groupWeightEntry gname i =
      tgt.groupWeightEntry gname i := by
  rcases hw : st.source.get_vertex_group_weights other with _ | weights
  · rw [transfer_one_group, hw]
  · rw [transfer_one_group, hw]
    exact set_vertex_group_weights_other tgt other gname hne _ i

theorem transfer_one_group_self (st : XferState) (mask : List ℚ) (tgt : MeshData)
    (g : String) (weights : List ℚ)
    (hproj : st.search_method ≠ topologyMethod)
    (hw : st.source.get_vertex_group_weights g = some weights)
    (hmlen : mask.length = st.target.verts.length)
    (i : Nat) (hi : i < st.target.verts.length) :
    (transfer_one_group st (some mask) tgt g).groupWeightEntry g i =
      if 0 < ((group_transferred_weights st.ensure_projection_cache weights).getD i none).getD 0
          * mask.getD i 0 + 0 * (1 - mask.getD i 0) then
        some (((group_transferred_weights st.ensure_projection_cache weights).getD i none).getD 0
          * mask.getD i 0 + 0 * (1 - mask.getD i 0))
      else tgt.groupWeightEntry g i := by
  have hgtlen : (group_transferred_weights st.ensure_projection_cache weights).length =
      st.target.verts.length := by
    rw [group_transferred_weights, List.length_map, get_transferred_length]
  rw [transfer_one_group, hw]
  dsimp only
  rw [if_neg hproj, if_neg hproj]
  have hzlen : (List.zipWith (fun (o : Option ℚ) (mq : ℚ) => o.map
      fun tv => tv * mq + 0 * (1 - mq)) (group_transferred_weights st.ensure_projection_cache
        weights) mask).length = st.target.verts.length := by
    rw [List.length_zipWith, hgtlen, hmlen]
    omega
  have hwi : ((List.zipWith (fun (o : Option ℚ) (mq : ℚ) => o.map
      fun tv => tv * mq + 0 * (1 - mq)) (group_transferred_weights st.ensure_projection_cache
        weights) mask).map (fun o => o.getD 0)).getD i 0 =
      ((group_transferred_weights st.ensure_projection_cache weights).getD i none).getD 0
        * mask.getD i 0 + 0 * (1 - mask.getD i 0) := by
    rw [map_getD _ _ i (by omega) none 0,
      zipWith_getD _ _ _ i (by omega) (by omega) none 0 none]
    rcases hrow : (group_transferred_weights st.ensure_projection_cache weights).getD i none
      with _ | t
    · simp only [Option.map_none', Option.getD_none]
      ring
    · simp only [Option.map_some', Option.getD_some]
  have hwlen : ((List.zipWith (fun (o : Option ℚ) (mq : ℚ) => o.map
      fun tv => tv * mq + 0 * (1 - mq)) (group_transferred_weights st.ensure_projection_cache
        weights) mask).map (fun o => o.getD 0)).length = st.target.verts.length := by
    rw [List.length_map, hzlen]
  have hi2 : i < ((List.zipWith (fun (o : Option ℚ) (mq : ℚ) => o.map
      fun tv => tv * mq + 0 * (1 - mq)) (group_transferred_weights st.ensure_projection_cache
        weights) mask).map (fun o => o.getD 0)).length := by omega
  by_cases hpos : 0 < ((group_transferred_weights st.ensure_projection_cache
      weights).getD i none).getD 0 * mask.getD i 0 + 0 * (1 - mask.getD i 0)
  · rw [if_pos hpos]
    rw [set_vertex_group_weights_written tgt g _ i hi2
      (by rw [← getD_eq_get _ i hi2 0, hwi]; exact hpos)]
    rw [← getD_eq_get _ i hi2 0, hwi]
  · rw [if_neg hpos]
    exact set_vertex_group_weights_le_zero_unchanged tgt g _ i hi2
      (by rw [← getD_eq_get _ i hi2 0, hwi]; exact le_of_not_lt hpos)

theorem foldl_transfer_groups_notmem (st : XferState) (mask : Option (List ℚ)) (g : String)
    (i : Nat) :
    ∀ (names : List String) (tgt : MeshData), g ∉ names →
      ((names.foldl (transfer_one_group st mask) tgt).groupWeightEntry g i) =
        tgt.groupWeightEntry g i
  | [], _, _ => rfl
  | n :: names, tgt, hnot => by
    rw [List.foldl_cons,
      foldl_transfer_groups_notmem st mask g i names _ (fun h => hnot (List.mem_cons_of_mem n h)),
      transfer_one_group_other st mask tgt g n (fun h => hnot (h ▸ List.mem_cons_self n names)) i]

theorem foldl_transfer_groups_entry (st : XferState) (mask : List ℚ) (g : String)
    (weights : List ℚ) (i : Nat)
    (hproj : st.search_method ≠ topologyMethod)
    (hw : st.source.get_vertex_group_weights g = some weights)
    (hmlen : mask.length = st.target.verts.length) (hi : i < st.target.verts.length) :
    ∀ (names : List String) (tgt : MeshData), names.Nodup → g ∈ names →
      ((names.foldl (transfer_one_group st (some mask)) tgt).groupWeightEntry g i) =
        if 0 < ((group_transferred_weights st.ensure_projection_cache weights).getD i
            none).getD 0 * mask.getD i 0 + 0 * (1 - mask.getD i 0) then
          some (((group_transferred_weights st.ensure_projection_cache weights).getD i
            none).getD 0 * mask.getD i 0 + 0 * (1 - mask.getD i 0))
        else tgt.groupWeightEntry g i
  | [], _, _, hmem => absurd hmem (List.not_mem_nil g)
  | n :: names, tgt, hnodup, hmem => by
    rw [List.foldl_cons]
    by_cases hng : n = g
    · subst hng
      have hnotin : n ∉ names := (List.nodup_cons.mp hnodup).1
      rw [foldl_transfer_groups_notmem st (some mask) n i names _ hnotin]
      exact transfer_one_group_self st mask tgt n weights hproj hw hmlen i hi
    · have hmem2 : g ∈ names := by
        rcases List.mem_cons.mp hmem with h | h
        · exact absurd h.symm hng
        · exact h
      rw [foldl_transfer_groups_entry st mask g weights i hproj hw hmlen hi names _
        (List.nodup_cons.mp hnodup).2 hmem2,
        transfer_one_group_other st (some mask) tgt g n (fun h => hng h.symm) i]

/-- C6 amended: in a projection mode with a vertex mask, the weight stored
for a transferred map at a target vertex is `t * m + 0 * (1 - m)` — the
interpolated weight scaled by the mask — whenever that value is strictly
positive, and otherwise the vertex is not written, so the target's existing
weight stays; the target's existing weight never enters the blend (the
`(1 - m)` term multiplies 0, not the existing value). -/
theorem claim_C6_amended (st : XferState)
    (hproj : st.search_method ≠ topologyMethod)
    (hsel : st.target.selected.length = st.target.verts.length)
    (names : List String)
    (hnames : st.source.get_vertex_groups_names st.exclude_locked_groups = some names)
    (hnodup : names.Nodup) (g : String) (hg : g ∈ names)
    (mask : List ℚ) (hmask : st.get_vertices_mask = some mask)
    (weights : List ℚ) (hw : st.source.get_vertex_group_weights g = some weights)
    (i : Nat) (hi : i < st.target.verts.length) :
    st.transfer_vertex_groups.1.groupWeightEntry g i =
      (if 0 < ((group_transferred_weights st.ensure_projection_cache weights).getD i
          none).getD 0 * mask.getD i 0 + 0 * (1 - mask.getD i 0) then
        some (((group_transferred_weights st.ensure_projection_cache weights).getD i
          none).getD 0 * mask.getD i 0 + 0 * (1 - mask.getD i 0))
      else st.target.groupWeightEntry g i) ∧
    st.transfer_vertex_groups.2 = Except.ok true := by
  have hmlen := get_vertices_mask_length st hsel mask hmask
  have hni : ¬(names.isEmpty = true) := by
    have := List.ne_nil_of_mem hg
    simpa using this
  constructor
  · rw [XferState.transfer_vertex_groups, hnames]
    dsimp only
    rw [if_neg hni, if_neg (fun hc => hproj hc.1), hmask]
    exact foldl_transfer_groups_entry st mask g weights i hproj hw hmlen hi names
      st.target hnodup hg
  · rw [XferState.transfer_vertex_groups, hnames]
    dsimp only
    rw [if_neg hni, if_neg (fun hc => hproj hc.1)]

def c6Target : MeshData :=
  { verts := [⟨0, 0, 7⟩]
    faces := []
    selected := [0]
    vertex_groups := [⟨maskGroupName, false, fun j => if j = 0 then some (1/2) else none⟩,
      ⟨weightGroupName, false, fun j => if j = 0 then some 1 else none⟩]
    shape_keys := none }

/-- C6 counterexample state: mask weight 1/2 at the single target vertex,
the target already holding weight 1 in the transferred group, and every
source vertex carrying weight 1. -/
def c6State : XferState :=
  { source := srcWeightMesh
    target := c6Target
    search_method := closestMethod
    vertex_group := some maskGroupName
    invert_vertex_group := false
    restrict_to_selection := false
    exclude_locked_groups := false
    exclude_muted_shapekeys := false
    nearest := fun _ => some (⟨0, 0, 0⟩, 0) }

/-- C6 counterexample: mask `m = 1/2`, interpolated weight `t = 1`, existing
target weight `1`; the claim predicts `m*t + (1-m)*1 = 1` but the code
stores `1/2` — the target's existing weight is not blended in. -/
theorem claim_C6_counterexample :
    c6State.get_vertices_mask = some [1/2] ∧
    (group_transferred_weights c6State.ensure_projection_cache
      ((c6State.source.get_vertex_group_weights weightGroupName).getD [])).getD 0 none =
        some 1 ∧
    c6State.target.groupWeightEntry weightGroupName 0 = some 1 ∧
    c6State.transfer_vertex_groups.1.groupWeightEntry weightGroupName 0 = some (1/2) ∧
    ¬((1 : ℚ)/2 = (1/2) * 1 + (1 - 1/2) * 1) := by
  refine ⟨by with_unfolding_all decide, by with_unfolding_all decide,
    by with_unfolding_all decide, by with_unfolding_all decide, by norm_num⟩

/-- C6 witness: `claim_C6_amended` applied at `c6State`, vertex 0: the
stored weight is `1 * (1/2) + 0 * (1/2) = 1/2`. -/
theorem claim_C6_witness :
    c6State.transfer_vertex_groups.1.groupWeightEntry weightGroupName 0 =
      (if 0 < ((group_transferred_weights c6State.ensure_projection_cache
          [1, 1, 1]).getD 0 none).getD 0 * ([(1 : ℚ)/2]).getD 0 0 +
          0 * (1 - ([(1 : ℚ)/2]).getD 0 0) then
        some (((group_transferred_weights c6State.ensure_projection_cache
          [1, 1, 1]).getD 0 none).getD 0 * ([(1 : ℚ)/2]).getD 0 0 +
          0 * (1 - ([(1 : ℚ)/2]).getD 0 0))
      else c6State.target.groupWeightEntry weightGroupName 0) ∧
    c6State.transfer_vertex_groups.2 = Except.ok true :=
  claim_C6_amended c6State (by with_unfolding_all decide) (by with_unfolding_all decide)
    [weightGroupName] (by with_unfolding_all decide) (by with_unfolding_all decide)
    weightGroupName (by with_unfolding_all decide) [1/2] (by with_unfolding_all decide)
    [1, 1, 1] (by with_unfolding_all decide) 0 (by with_unfolding_all decide)

theorem beq_name_eq_false_of_ne {a b : String} (h : ¬((a == b) = true)) : (a == b) = false := by
  revert h
  cases hq : (a == b) <;> simp

theorem find?_pos_map_overwrite (nm : String) (co : List Vec3) :
    ∀ ks : List ShapeKey, (ks.any fun sk => sk.name == nm) = true →
      ((ks.map fun sk => if sk.name == nm then { sk with positions := co } else sk).find?
        (fun sk => sk.name == nm)).map (fun sk => sk.positions) = some co
  | [], h => by simp at h
  | k :: ks, h => by
    by_cases hk : (k.name == nm) = true
    · rw [List.map_cons, if_pos hk, List.find?_cons]
      have hk2 : (({ k with positions := co } : ShapeKey).name == nm) = true := hk
      simp only [hk2]
      rfl
    · have hkf : (k.name == nm) = false := beq_name_eq_false_of_ne hk
      have h2 : (ks.any fun sk => sk.name == nm) = true := by
        rw [List.any_cons, hkf] at h
        simpa using h
      rw [List.map_cons, if_neg hk, List.find?_cons]
      simp only [hkf]
      exact find?_pos_map_overwrite nm co ks h2

theorem find?_pos_map_overwrite_ne (nm other : String) (hne : other ≠ nm) (co : List Vec3) :
    ∀ ks : List ShapeKey,
      ((ks.map fun sk => if sk.name == nm then { sk with positions := co } else sk).find?
        (fun sk => sk.name == other)).map (fun sk => sk.positions) =
      (ks.find? fun sk => sk.name == other).map (fun sk => sk.positions)
  | [] => rfl
  | k :: ks => by
    by_cases hk : (k.name == other) = true
    · have hknm : (k.name == nm) = false := by
        have hko : k.name = other := by simpa using hk
        rw [hko]
        exact beq_eq_false_iff_ne.mpr (fun h => hne h)
      rw [List.map_cons, if_neg (by simp [hknm]), List.find?_cons, List.find?_cons]
      simp only [hk]
    · have hkf : (k.name == other) = false := beq_name_eq_false_of_ne hk
      by_cases hknm : (k.name == nm) = true
      · rw [List.map_cons, if_pos hknm, List.find?_cons, List.find?_cons]
        have hk2 : (({ k with positions := co } : ShapeKey).name == other) = false := hkf
        simp only [hk2, hkf]
        exact find?_pos_map_overwrite_ne nm other hne co ks
      · rw [List.map_cons, if_neg hknm, List.find?_cons, List.find?_cons]
        simp only [hkf]
        exact find?_pos_map_overwrite_ne nm other hne co ks

theorem find?_pos_map_sliders (nm other : String) (smin smax : ℚ) :
    ∀ ks : List ShapeKey,
      ((ks.map fun sk => if sk.name == nm then
          { sk with slider_min := smin, slider_max := smax } else sk).find?
        (fun sk => sk.name == other)).map (fun sk => sk.positions) =
      (ks.find? fun sk => sk.name == other).map (fun sk => sk.positions)
  | [] => rfl
  | k :: ks => by
    by_cases hk : (k.name == other) = true
    · by_cases hknm : (k.name == nm) = true
      · rw [List.map_cons, if_pos hknm, List.find?_cons, List.find?_cons]
        have hk2 : (({ k with slider_min := smin, slider_max := smax } : ShapeKey).name ==
          other) = true := hk
        simp only [hk2, hk]
        rfl
      · rw [List.map_cons, if_neg hknm, List.find?_cons, List.find?_cons]
        simp only [hk]
    · have hkf : (k.name == other) = false := beq_name_eq_false_of_ne hk
      by_cases hknm : (k.name == nm) = true
      · rw [List.map_cons, if_pos hknm, List.find?_cons, List.find?_cons]
        have hk2 : (({ k with slider_min := smin, slider_max := smax } : ShapeKey).name ==
          other) = false := hkf
        simp only [hk2, hkf]
        exact find?_pos_map_sliders nm other smin smax ks
      · rw [List.map_cons, if_neg hknm, List.find?_cons, List.find?_cons]
        simp only [hkf]
        exact find?_pos_map_sliders nm other smin smax ks

/-- Copying slider bounds never changes any shape's positions. -/
theorem get_shape_key_vert_pos_set_sliders (m : MeshData) (nm other : String)
    (smin smax : ℚ) :
    (m.set_shape_key_sliders nm smin smax).get_shape_key_vert_pos other =
      m.get_shape_key_vert_pos other := by
  rcases hks : m.shape_keys with _ | ks
  · rw [MeshData.set_shape_key_sliders, hks]
  · rw [MeshData.set_shape_key_sliders, hks]
    dsimp only
    rw [MeshData.get_shape_key_vert_pos, MeshData.get_shape_key_vert_pos, hks]
    dsimp only
    exact find?_pos_map_sliders nm other smin smax ks

theorem any_name_get_or_create (nm : String) (verts : List Vec3) (ks0 : List ShapeKey) :
    ((if ks0.any (fun sk => sk.name == nm) then ks0 else ks0 ++ [newShapeKey nm verts]).any
      (fun sk => sk.name == nm)) = true := by
  by_cases h : (ks0.any fun sk => sk.name == nm) = true
  · rw [if_pos h]
    exact h
  · rw [if_neg h, List.any_append]
    simp [newShapeKey]

theorem set_position_as_shape_key_lookup_self (m : MeshData) (nm : String) (co : List Vec3) :
    (m.set_position_as_shape_key nm co false).get_shape_key_vert_pos nm = some co := by
  rcases hks : m.shape_keys with _ | ks
  · rw [MeshData.set_position_as_shape_key, hks]
    dsimp only
    rw [MeshData.get_shape_key_vert_pos]
    dsimp only
    exact find?_pos_map_overwrite nm co _ (any_name_get_or_create nm m.verts _)
  · rw [MeshData.set_position_as_shape_key, hks]
    dsimp only
    rw [MeshData.get_shape_key_vert_pos]
    dsimp only
    exact find?_pos_map_overwrite nm co _ (any_name_get_or_create nm m.verts _)

theorem set_position_as_shape_key_lookup_other (m : MeshData) (nm other : String)
    (hne1 : other ≠ nm) (hne2 : other ≠ basisKeyName) (co : List Vec3) :
    (m.set_position_as_shape_key nm co false).get_shape_key_vert_pos other =
      m.get_shape_key_vert_pos other := by
  have hnewnm : ((newShapeKey nm m.verts).name == other) = false := by
    simp only [newShapeKey]
    exact beq_eq_false_iff_ne.mpr (Ne.symm hne1)
  rcases hks : m.shape_keys with _ | ks
  · rw [MeshData.set_position_as_shape_key, hks]
    dsimp only
    rw [MeshData.get_shape_key_vert_pos, MeshData.get_shape_key_vert_pos, hks]
    dsimp only
    rw [if_neg (show ¬((false : Bool) = true) by simp), find?_pos_map_overwrite_ne nm other
      hne1 co]
    have hbasis : ((newShapeKey basisKeyName m.verts).name == other) = false := by
      simp only [newShapeKey]
      exact beq_eq_false_iff_ne.mpr (Ne.symm hne2)
    by_cases hany : (([newShapeKey basisKeyName m.verts]).any fun sk => sk.name == nm) = true
    · rw [if_pos hany, List.find?_cons, hbasis]
      rfl
    · rw [if_neg hany, List.cons_append, List.find?_cons, hbasis]
      rw [List.nil_append, List.find?_cons, hnewnm]
      rfl
  · rw [MeshData.set_position_as_shape_key, hks]
    dsimp only
    rw [MeshData.get_shape_key_vert_pos, MeshData.get_shape_key_vert_pos, hks]
    dsimp only
    rw [if_neg (show ¬((false : Bool) = true) by simp), find?_pos_map_overwrite_ne nm other
      hne1 co]
    by_cases hany : (ks.any fun sk => sk.name == nm) = true
    · rw [if_pos hany]
    · rw [if_neg hany]
      rcases hf : ks.find? (fun sk => sk.name == other) with _ | g
      · rw [find?_append_of_none _ _ _ hf, hf, List.find?_cons, hnewnm]
        rfl
      · rw [find?_append_of_some _ _ _ _ hf, hf]

theorem transfer_one_shape_key_lookup_self (st : XferState) (undeformed : List Vec3)
    (base_transferred : List (Option Vec3)) (mask : Option (List ℚ))
    (target_sks : List (String × List Vec3)) (tgt : MeshData) (sk : String × List Vec3) :
    MeshData.get_shape_key_vert_pos
      (transfer_one_shape_key st undeformed base_transferred mask target_sks tgt sk) sk.1 =
      some ((transfer_one_shape_key_array st undeformed base_transferred mask target_sks
        sk).map fun o => o.getD Vec3.zero) := by
  rw [transfer_one_shape_key]
  rw [get_shape_key_vert_pos_set_sliders]
  exact set_position_as_shape_key_lookup_self tgt sk.1 _

theorem transfer_one_shape_key_lookup_other (st : XferState) (undeformed : List Vec3)
    (base_transferred : List (Option Vec3)) (mask : Option (List ℚ))
    (target_sks : List (String × List Vec3)) (tgt : MeshData) (sk : String × List Vec3)
    (other : String) (hne1 : other ≠ sk.1) (hne2 : other ≠ basisKeyName) :
    MeshData.get_shape_key_vert_pos
      (transfer_one_shape_key st undeformed base_transferred mask target_sks tgt sk) other =
      tgt.get_shape_key_vert_pos other := by
  rw [transfer_one_shape_key]
  rw [get_shape_key_vert_pos_set_sliders]
  exact set_position_as_shape_key_lookup_other tgt sk.1 other hne1 hne2 _

theorem foldl_shape_keys_notmem (st : XferState) (undeformed : List Vec3)
    (base_transferred : List (Option Vec3)) (mask : Option (List ℚ))
    (target_sks : List (String × List Vec3)) (nm : String) (hnb : nm ≠ basisKeyName) :
    ∀ (sks : List (String × List Vec3)) (tgt : MeshData), nm ∉ sks.map Prod.fst →
      MeshData.get_shape_key_vert_pos
        (sks.foldl (transfer_one_shape_key st undeformed base_transferred mask target_sks)
          tgt) nm = tgt.get_shape_key_vert_pos nm
  | [], _, _ => rfl
  | p :: sks, tgt, hnot => by
    rw [List.foldl_cons,
      foldl_shape_keys_notmem st undeformed base_transferred mask target_sks nm hnb sks _
        (fun h => hnot (List.mem_cons_of_mem p.1 h)),
      transfer_one_shape_key_lookup_other st undeformed base_transferred mask target_sks
        tgt p nm (fun h => hnot (h ▸ List.mem_cons_self p.1 (sks.map Prod.fst))) hnb]

theorem foldl_shape_keys_entry (st : XferState) (undeformed : List Vec3)
    (base_transferred : List (Option Vec3)) (mask : Option (List ℚ))
    (target_sks : List (String × List Vec3)) (nm : String) (pts : List Vec3)
    (hnb : nm ≠ basisKeyName) :
    ∀ (sks : List (String × List Vec3)) (tgt : MeshData), (sks.map Prod.fst).Nodup →
      (nm, pts) ∈ sks →
      MeshData.get_shape_key_vert_pos
        (sks.foldl (transfer_one_shape_key st undeformed base_transferred mask target_sks)
          tgt) nm =
        some ((transfer_one_shape_key_array st undeformed base_transferred mask target_sks
          (nm, pts)).map fun o => o.getD Vec3.zero)
  | [], _, _, hmem => absurd hmem (List.not_mem_nil _)
  | p :: sks, tgt, hnodup, hmem => by
    rw [List.foldl_cons]
    rw [List.map_cons] at hnodup
    by_cases hp : p.1 = nm
    · have hnotin : nm ∉ sks.map Prod.fst := by
        have h2 := (List.nodup_cons.mp hnodup).1
        rw [hp] at h2
        exact h2
      rcases List.mem_cons.mp hmem with h | h
      · rw [foldl_shape_keys_notmem st undeformed base_transferred mask target_sks nm hnb
          sks _ hnotin, ← h,
          transfer_one_shape_key_lookup_self st undeformed base_transferred mask target_sks
            tgt (nm, pts)]
      · exact absurd (by simpa using List.mem_map_of_mem Prod.fst h) hnotin
    · have hmem2 : (nm, pts) ∈ sks := by
        rcases List.mem_cons.mp hmem with h | h
        · exact absurd (by rw [← h]) hp
        · exact h
      exact foldl_shape_keys_entry st undeformed base_transferred mask target_sks nm pts hnb
        sks _ (List.nodup_cons.mp hnodup).2 hmem2

theorem missedList_proj (st : XferState) (hproj : st.search_method ≠ topologyMethod) :
    st.missedList = st.ensure_projection_cache.missed_projections := by
  rw [XferState.missedList, if_neg hproj]

theorem hasZeroFlag_proj (st : XferState) (hproj : st.search_method ≠ topologyMethod) :
    st.hasZeroFlag = st.ensure_projection_cache.has_zero_area_faces := by
  rw [XferState.hasZeroFlag, if_neg hproj]

theorem base_transferred_position_proj (st : XferState)
    (hproj : st.search_method ≠ topologyMethod) :
    st.base_transferred_position =
      whereMissed st.ensure_projection_cache.missed_projections st.target.get_verts_position
        (if st.ensure_projection_cache.has_zero_area_faces then
          replace_nan st.target.get_verts_position
            (get_transferred_vert_coords st.ensure_projection_cache
              st.source.get_verts_position)
        else get_transferred_vert_coords st.ensure_projection_cache
          st.source.get_verts_position) := by
  rw [XferState.base_transferred_position]
  dsimp only
  rw [if_neg hproj, missedList_proj st hproj]

theorem base_transferred_position_getD (st : XferState)
    (hproj : st.search_method ≠ topologyMethod) (i : Nat)
    (hi : i < st.target.verts.length) :
    ∃ b : Vec3, st.base_transferred_position.getD i none = some b := by
  rw [base_transferred_position_proj st hproj]
  obtain ⟨b, hrow, _⟩ := base_pipeline_getD st st.source.get_verts_position i hi
  exact ⟨b, hrow⟩

theorem base_transferred_position_length (st : XferState)
    (hproj : st.search_method ≠ topologyMethod) :
    st.base_transferred_position.length = st.target.verts.length := by
  rw [base_transferred_position_proj st hproj, whereMissed, zipWith3L_length]
  have h1 := cache_missed_length st
  have h2 := get_transferred_length st st.source.get_verts_position
  have h2b : (get_transferred_vert_coords st.ensure_projection_cache
      st.source.verts).length = st.target.verts.length := get_transferred_length st _
  by_cases hz : st.ensure_projection_cache.has_zero_area_faces <;>
    simp [hz, replace_nan, List.length_zipWith, h1, h2, h2b, MeshData.get_verts_position]

/-- Row analysis of the per-shape-key array in a projection mode with a
mask: every row is the mask blend of a defined value `v` against the
target's own position, and on a clean row (hit, defined weights, no
pre-existing target shape) `v` is the barycentric interpolation of the
shape's own positions. -/
theorem transfer_one_shape_key_array_getD (st : XferState)
    (hproj : st.search_method ≠ topologyMethod)
    (target_sks : List (String × List Vec3))
    (hwf : ∀ q ∈ target_sks, (q.2 : List Vec3).length = st.target.verts.length)
    (mask : List ℚ) (hmlen : mask.length = st.target.verts.length)
    (sk : String × List Vec3) (i : Nat) (hi : i < st.target.verts.length) :
    ∃ v : Vec3,
      (transfer_one_shape_key_array st st.target.get_verts_position
        st.base_transferred_position (some mask) target_sks sk).getD i none =
        some (mask.getD i 0 • v + (1 - mask.getD i 0) • st.target.verts.getD i Vec3.zero) ∧
      (st.ensure_projection_cache.missed_projections.getD i true = false →
        lookupPairs target_sks sk.1 = none →
        ∀ bc, st.ensure_projection_cache.barycentric_coords.getD i none = some bc →
          v = calculate_barycentric_location (triOfIds sk.2
            (st.ensure_projection_cache.related_ids.getD i (0, 0, 0))) bc) := by
  have hub : st.target.get_verts_position.length = st.target.verts.length := rfl
  have hmis := cache_missed_length st
  have hgt := get_transferred_length st sk.2
  have hblen := base_transferred_position_length st hproj
  have hwm : (whereMissed st.ensure_projection_cache.missed_projections
      st.target.get_verts_position
      (get_transferred_vert_coords st.ensure_projection_cache sk.2)).length =
      st.target.verts.length := by
    rw [whereMissed, zipWith3L_length]
    omega
  have hT : ∃ v : Vec3,
      (if st.ensure_projection_cache.has_zero_area_faces then
        replace_nan st.target.get_verts_position
          (whereMissed st.ensure_projection_cache.missed_projections
            st.target.get_verts_position
            (get_transferred_vert_coords st.ensure_projection_cache sk.2))
      else whereMissed st.ensure_projection_cache.missed_projections
        st.target.get_verts_position
        (get_transferred_vert_coords st.ensure_projection_cache sk.2)).getD i none =
        some v ∧
      (st.ensure_projection_cache.missed_projections.getD i true = false →
        ∀ bc, st.ensure_projection_cache.barycentric_coords.getD i none = some bc →
          v = calculate_barycentric_location (triOfIds sk.2
            (st.ensure_projection_cache.related_ids.getD i (0, 0, 0))) bc) := by
    have hwmrow : (whereMissed st.ensure_projection_cache.missed_projections
        st.target.get_verts_position
        (get_transferred_vert_coords st.ensure_projection_cache sk.2)).getD i none =
        if st.ensure_projection_cache.missed_projections.getD i true then
          some (st.target.get_verts_position.getD i Vec3.zero)
        else (get_transferred_vert_coords st.ensure_projection_cache sk.2).getD i none := by
      rw [whereMissed]
      exact zipWith3L_getD
        (fun (mi : Bool) (u : Vec3) (o : Option Vec3) => if mi then some u else o)
        st.ensure_projection_cache.missed_projections st.target.get_verts_position
        (get_transferred_vert_coords st.ensure_projection_cache sk.2) i (by omega) (by omega)
        (by omega) true Vec3.zero none none
    rcases hmiss : st.ensure_projection_cache.missed_projections.getD i true with _ | _
    · rw [hmiss, if_neg (show ¬((false : Bool) = true) by simp)] at hwmrow
      rcases hbary : st.ensure_projection_cache.barycentric_coords.getD i none with _ | bc
      · have hz := flag_true_of_bary_none st i hi hbary
        have hgtrow := get_transferred_getD st sk.2 i hi
        rw [hbary] at hgtrow
        rw [hz, if_pos rfl, replace_nan, zipWith_getD _ _ _ i (by omega) (by omega)
          Vec3.zero none none, hwmrow, hgtrow]
        exact ⟨st.target.verts.getD i Vec3.zero, rfl, fun _ bc hbc => absurd hbc (by simp)⟩
      · have hgtrow := get_transferred_getD st sk.2 i hi
        rw [hbary] at hgtrow
        by_cases hz : st.ensure_projection_cache.has_zero_area_faces
        · rw [hz, if_pos rfl, replace_nan, zipWith_getD _ _ _ i (by omega) (by omega)
            Vec3.zero none none, hwmrow, hgtrow]
          exact ⟨_, rfl, fun _ bc2 hbc2 => by rw [← Option.some.inj hbc2]⟩
        · rw [Bool.not_eq_true] at hz
          rw [hz, if_neg (show ¬((false : Bool) = true) by simp), hwmrow, hgtrow]
          exact ⟨_, rfl, fun _ bc2 hbc2 => by rw [← Option.some.inj hbc2]⟩
    · rw [hmiss, if_pos rfl] at hwmrow
      by_cases hz : st.ensure_projection_cache.has_zero_area_faces
      · rw [hz, if_pos rfl, replace_nan, zipWith_getD _ _ _ i (by omega) (by omega)
          Vec3.zero none none, hwmrow]
        exact ⟨st.target.get_verts_position.getD i Vec3.zero, rfl,
          fun hmf => absurd hmf (by simp)⟩
      · rw [Bool.not_eq_true] at hz
        rw [hz, if_neg (show ¬((false : Bool) = true) by simp), hwmrow]
        exact ⟨st.target.get_verts_position.getD i Vec3.zero, rfl,
          fun hmf => absurd hmf (by simp)⟩
  obtain ⟨v1, hv1, hchar⟩ := hT
  have hTlen : (if st.ensure_projection_cache.has_zero_area_faces then
      replace_nan st.target.get_verts_position
        (whereMissed st.ensure_projection_cache.missed_projections
          st.target.get_verts_position
          (get_transferred_vert_coords st.ensure_projection_cache sk.2))
    else whereMissed st.ensure_projection_cache.missed_projections
      st.target.get_verts_position
      (get_transferred_vert_coords st.ensure_projection_cache sk.2)).length =
      st.target.verts.length := by
    by_cases hz : st.ensure_projection_cache.has_zero_area_faces <;>
      simp [hz, replace_nan, List.length_zipWith, hwm, hub]
  rw [transfer_one_shape_key_array]
  rw [if_neg hproj, missedList_proj st hproj, hasZeroFlag_proj st hproj]
  rcases hlk : lookupPairs target_sks sk.1 with _ | existing
  · dsimp only
    rw [mask_blend, zipWith3L_getD _ _ _ _ i (by omega) (by omega) (by omega)
      0 Vec3.zero none none, hv1]
    exact ⟨v1, rfl, fun hm _ bc hbc => hchar hm bc hbc⟩
  · dsimp only
    have hpair : ∃ q ∈ target_sks, (q.2 : List Vec3) = existing := by
      rw [lookupPairs] at hlk
      rcases hf : target_sks.find? (fun p => p.1 == sk.1) with _ | q
      · rw [hf] at hlk
        exact absurd hlk (by simp)
      · rw [hf] at hlk
        exact ⟨q, List.mem_of_find?_eq_some hf, by simpa using hlk⟩
    obtain ⟨q, hqmem, hq2⟩ := hpair
    have helen : existing.length = st.target.verts.length := by
      rw [← hq2]
      exact hwf q hqmem
    obtain ⟨b, hbrow⟩ := base_transferred_position_getD st hproj i hi
    have hzlen : (zipWith3L (fun (e : Vec3) (o b : Option Vec3) => match o, b with
        | some tv, some bv => some (e + (tv - bv))
        | _, _ => none) existing
        (if st.ensure_projection_cache.has_zero_area_faces then
          replace_nan st.target.get_verts_position
            (whereMissed st.ensure_projection_cache.missed_projections
              st.target.get_verts_position
              (get_transferred_vert_coords st.ensure_projection_cache sk.2))
        else whereMissed st.ensure_projection_cache.missed_projections
          st.target.get_verts_position
          (get_transferred_vert_coords st.ensure_projection_cache sk.2))
        st.base_transferred_position).length = st.target.verts.length := by
      rw [zipWith3L_length]
      omega
    rw [mask_blend, zipWith3L_getD _ _ _ _ i (by omega) (by omega) (by omega)
      0 Vec3.zero none none,
      zipWith3L_getD _ _ _ _ i (by omega) (by omega) (by omega) Vec3.zero none none,
      hv1, hbrow]
    exact ⟨existing.getD i Vec3.zero + (v1 - b), rfl, fun _ hl => absurd hl (by simp)⟩

theorem Vec3.smul_blend_zero (v u : Vec3) : (0 : ℚ) • v + (1 - 0 : ℚ) • u = u := by
  obtain ⟨v1, v2, v3⟩ := v
  obtain ⟨u1, u2, u3⟩ := u
  simp only [Vec3.smul_def, Vec3.add_def, Vec3.mk.injEq]
  refine ⟨by ring, by ring, by ring⟩

theorem Vec3.smul_blend_one (v u : Vec3) : (1 : ℚ) • v + (1 - 1 : ℚ) • u = v := by
  obtain ⟨v1, v2, v3⟩ := v
  obtain ⟨u1, u2, u3⟩ := u
  simp only [Vec3.smul_def, Vec3.add_def, Vec3.mk.injEq]
  refine ⟨by ring, by ring, by ring⟩

theorem transfer_one_shape_key_array_length (st : XferState)
    (hproj : st.search_method ≠ topologyMethod)
    (target_sks : List (String × List Vec3))
    (hwf : ∀ q ∈ target_sks, (q.2 : List Vec3).length = st.target.verts.length)
    (mask : List ℚ) (hmlen : mask.length = st.target.verts.length)
    (sk : String × List Vec3) :
    (transfer_one_shape_key_array st st.target.get_verts_position
      st.base_transferred_position (some mask) target_sks sk).length =
      st.target.verts.length := by
  have hub : st.target.get_verts_position.length = st.target.verts.length := rfl
  have hmis := cache_missed_length st
  have hgt := get_transferred_length st sk.2
  have hblen := base_transferred_position_length st hproj
  have hwm : (whereMissed st.ensure_projection_cache.missed_projections
      st.target.get_verts_position
      (get_transferred_vert_coords st.ensure_projection_cache sk.2)).length =
      st.target.verts.length := by
    rw [whereMissed, zipWith3L_length]
    omega
  have hTlen : (if st.ensure_projection_cache.has_zero_area_faces then
      replace_nan st.target.get_verts_position
        (whereMissed st.ensure_projection_cache.missed_projections
          st.target.get_verts_position
          (get_transferred_vert_coords st.ensure_projection_cache sk.2))
    else whereMissed st.ensure_projection_cache.missed_projections
      st.target.get_verts_position
      (get_transferred_vert_coords st.ensure_projection_cache sk.2)).length =
      st.target.verts.length := by
    by_cases hz : st.ensure_projection_cache.has_zero_area_faces <;>
      simp [hz, replace_nan, List.length_zipWith, hwm, hub]
  rw [transfer_one_shape_key_array]
  rw [if_neg hproj, missedList_proj st hproj, hasZeroFlag_proj st hproj]
  rcases hlk : lookupPairs target_sks sk.1 with _ | existing
  · dsimp only
    rw [mask_blend, zipWith3L_length]
    omega
  · dsimp only
    have hpair : ∃ q ∈ target_sks, (q.2 : List Vec3) = existing := by
      rw [lookupPairs] at hlk
      rcases hf : target_sks.find? (fun p => p.1 == sk.1) with _ | q
      · rw [hf] at hlk
        exact absurd hlk (by simp)
      · rw [hf] at hlk
        exact ⟨q, List.mem_of_find?_eq_some hf, by simpa using hlk⟩
    obtain ⟨q, hqmem, hq2⟩ := hpair
    have helen : existing.length = st.target.verts.length := by
      rw [← hq2]
      exact hwf q hqmem
    rw [mask_blend]
    simp only [zipWith3L_length]
    omega

/-- Outcome of `transfer_shape_keys` for one transferred name, in a
projection mode with a nonempty eligible source shape dict: ok True, and
the named shape holds the computed per-shape array. -/
theorem transfer_shape_keys_entry_general (st : XferState)
    (hproj : st.search_method ≠ topologyMethod)
    (shape_keys : List (String × List Vec3))
    (hsk : st.source.get_shape_keys_vert_pos st.exclude_muted_shapekeys = some shape_keys)
    (hnodup : (shape_keys.map Prod.fst).Nodup)
    (nm : String) (pts : List Vec3) (hmem : (nm, pts) ∈ shape_keys)
    (hnb : nm ≠ basisKeyName) :
    st.transfer_shape_keys.2 = Except.ok true ∧
    MeshData.get_shape_key_vert_pos st.transfer_shape_keys.1 nm =
      some ((transfer_one_shape_key_array st st.target.get_verts_position
        st.base_transferred_position st.get_vertices_mask
        ((st.target.get_shape_keys_vert_pos false).getD []) (nm, pts)).map
        fun o => o.getD Vec3.zero) := by
  have hne : shape_keys.isEmpty = false := by
    cases shape_keys
    · exact absurd hmem (List.not_mem_nil _)
    · rfl
  rw [XferState.transfer_shape_keys, hsk]
  dsimp only
  rw [hne, if_neg (show ¬((false : Bool) = true) by simp),
    if_neg (show ¬(st.search_method = topologyMethod ∧ st.source.v_count ≠ st.target.v_count)
      from fun h => hproj h.1)]
  exact ⟨rfl, foldl_shape_keys_entry st st.target.get_verts_position
    st.base_transferred_position st.get_vertices_mask _ nm pts hnb shape_keys st.target
    hnodup hmem⟩

/-- C3 counterexample target: one vertex resting at (2,2,2), a mask group
whose dense weights are all zero, and a pre-existing shape KeyA holding
(2,2,9). -/
def c3Target : MeshData :=
  { verts := [⟨2, 2, 2⟩]
    faces := []
    selected := [0]
    vertex_groups := [⟨maskGroupName, false, fun _ => none⟩]
    shape_keys := some [newShapeKey basisKeyName [⟨2, 2, 2⟩],
      { name := keyAName, mute := false, positions := [⟨2, 2, 9⟩],
        slider_min := 0, slider_max := 1, value := 0 }] }

/-- C3 scenario: projection transfer of `srcShapeMesh`'s keys onto
`c3Target` under the all-zero mask. -/
def c3State : XferState :=
  { source := srcShapeMesh
    target := c3Target
    search_method := closestMethod
    vertex_group := some maskGroupName
    invert_vertex_group := false
    restrict_to_selection := false
    exclude_locked_groups := false
    exclude_muted_shapekeys := false
    nearest := fun _ => some (⟨0, 0, 0⟩, 0) }

/-- C3 counterexample: with the mask zero at every target vertex, the
pre-existing shape KeyA at (2,2,9) is overwritten with the target rest
position (2,2,2) — the operation is not a no-op on blend-shape data. -/
theorem claim_C3_counterexample :
    c3State.get_vertices_mask = some [0] ∧
    MeshData.get_shape_key_vert_pos c3State.target keyAName = some [⟨2, 2, 9⟩] ∧
    c3State.transfer_shape_keys.2 = Except.ok true ∧
    MeshData.get_shape_key_vert_pos c3State.transfer_shape_keys.1 keyAName =
      some [⟨2, 2, 2⟩] ∧
    ((⟨2, 2, 2⟩ : Vec3) ≠ ⟨2, 2, 9⟩) := by
  refine ⟨by with_unfolding_all decide, by with_unfolding_all decide,
    by with_unfolding_all decide, by with_unfolding_all decide,
    by with_unfolding_all decide⟩

/-- C3 (amended): with an all-zero mask in a projection mode
`transfer_shape_keys` is NOT a no-op: it returns ok True and writes every
eligible source shape name, and each written shape's per-vertex positions
equal the target's rest positions (the blend `0*transferred + 1*rest`),
clobbering any pre-existing shape data of that name. -/
theorem claim_C3_amended (st : XferState)
    (hproj : st.search_method ≠ topologyMethod)
    (shape_keys : List (String × List Vec3))
    (hsk : st.source.get_shape_keys_vert_pos st.exclude_muted_shapekeys = some shape_keys)
    (hnodup : (shape_keys.map Prod.fst).Nodup)
    (mask : List ℚ) (hmask : st.get_vertices_mask = some mask)
    (hmlen : mask.length = st.target.verts.length)
    (hzero : ∀ i, i < st.target.verts.length → mask.getD i 0 = 0)
    (hwf : ∀ q ∈ (st.target.get_shape_keys_vert_pos false).getD [],
      (q.2 : List Vec3).length = st.target.verts.length)
    (nm : String) (pts : List Vec3) (hmem : (nm, pts) ∈ shape_keys)
    (hnb : nm ≠ basisKeyName) :
    st.transfer_shape_keys.2 = Except.ok true ∧
    ∃ l : List Vec3,
      MeshData.get_shape_key_vert_pos st.transfer_shape_keys.1 nm = some l ∧
      l.length = st.target.verts.length ∧
      ∀ i, i < st.target.verts.length →
        l.getD i Vec3.zero = st.target.verts.getD i Vec3.zero := by
  obtain ⟨hok, hentry⟩ :=
    transfer_shape_keys_entry_general st hproj shape_keys hsk hnodup nm pts hmem hnb
  rw [hmask] at hentry
  have hlen := transfer_one_shape_key_array_length st hproj
    ((st.target.get_shape_keys_vert_pos false).getD []) hwf mask hmlen (nm, pts)
  refine ⟨hok, _, hentry, ?_, ?_⟩
  · rw [List.length_map]
    exact hlen
  · intro i hi
    obtain ⟨v, hrow, _⟩ := transfer_one_shape_key_array_getD st hproj
      ((st.target.get_shape_keys_vert_pos false).getD []) hwf mask hmlen (nm, pts) i hi
    have hmg := map_getD (fun o : Option Vec3 => o.getD Vec3.zero)
      (transfer_one_shape_key_array st st.target.get_verts_position
        st.base_transferred_position (some mask)
        ((st.target.get_shape_keys_vert_pos false).getD []) (nm, pts)) i (by omega)
      none Vec3.zero
    rw [hmg, hrow]
    simp only [Option.getD_some]
    rw [hzero i hi]
    exact Vec3.smul_blend_zero v _

/-- C3 witness: `claim_C3_amended` at the concrete state `c3State`. -/
theorem claim_C3_witness :
    c3State.transfer_shape_keys.2 = Except.ok true ∧
    ∃ l : List Vec3,
      MeshData.get_shape_key_vert_pos c3State.transfer_shape_keys.1 keyAName = some l ∧
      l.length = c3State.target.verts.length ∧
      ∀ i, i < c3State.target.verts.length →
        l.getD i Vec3.zero = c3State.target.verts.getD i Vec3.zero :=
  claim_C3_amended c3State (by with_unfolding_all decide)
    [(keyAName, [⟨0, 0, 1⟩, ⟨1, 0, 1⟩, ⟨0, 1, 1⟩])] (by with_unfolding_all decide)
    (by with_unfolding_all decide) [0] (by with_unfolding_all decide)
    (by with_unfolding_all decide)
    (by
      intro i hi
      have h0 : i = 0 := by
        have : c3State.target.verts.length = 1 := rfl
        omega
      rw [h0]
      rfl)
    (by with_unfolding_all decide) keyAName [⟨0, 0, 1⟩, ⟨1, 0, 1⟩, ⟨0, 1, 1⟩]
    (by with_unfolding_all decide) (by with_unfolding_all decide)

/-- C2 counterexample: all-one mask and no pre-existing KeyA on the target;
`base_transferred = (0,0,0)` and `shape_transferred = (0,0,1)` give the
per-vertex delta D = (0,0,1), so the claim predicts
target_reference + D = (0,0,8); the code writes (0,0,1)
(the interpolated shape position itself), never adding the target's
reference positions when no pre-existing shape of that name exists. -/
theorem claim_C2_counterexample :
    c2State.get_vertices_mask = some [1] ∧
    MeshData.get_shape_key_vert_pos c2State.target keyAName = none ∧
    c2State.base_transferred_position = [some ⟨0, 0, 0⟩] ∧
    get_transferred_vert_coords c2State.ensure_projection_cache
      [⟨0, 0, 1⟩, ⟨1, 0, 1⟩, ⟨0, 1, 1⟩] = [some ⟨0, 0, 1⟩] ∧
    c2State.transfer_shape_keys.2 = Except.ok true ∧
    MeshData.get_shape_key_vert_pos c2State.transfer_shape_keys.1 keyAName =
      some [⟨0, 0, 1⟩] ∧
    c2State.target.verts.getD 0 Vec3.zero + (⟨0, 0, 1⟩ - ⟨0, 0, 0⟩) = (⟨0, 0, 8⟩ : Vec3) ∧
    ((⟨0, 0, 1⟩ : Vec3) ≠ ⟨0, 0, 8⟩) := by
  refine ⟨by with_unfolding_all decide, by with_unfolding_all decide,
    by with_unfolding_all decide, by with_unfolding_all decide,
    by with_unfolding_all decide, by with_unfolding_all decide,
    by with_unfolding_all decide, by with_unfolding_all decide⟩

/-- C2 (amended): in a projection mode with an all-one mask and no
pre-existing target shape of the transferred name, the written blend-shape
array equals the shape-interpolated positions themselves: on every cleanly
projected vertex (hit recorded, non-degenerate barycentric row) the stored
position is the barycentric interpolation of the source shape's own
positions over the hit triangle — not the target's reference positions
plus the delta. -/
theorem claim_C2_amended (st : XferState)
    (hproj : st.search_method ≠ topologyMethod)
    (shape_keys : List (String × List Vec3))
    (hsk : st.source.get_shape_keys_vert_pos st.exclude_muted_shapekeys = some shape_keys)
    (hnodup : (shape_keys.map Prod.fst).Nodup)
    (mask : List ℚ) (hmask : st.get_vertices_mask = some mask)
    (hmlen : mask.length = st.target.verts.length)
    (hone : ∀ i, i < st.target.verts.length → mask.getD i 0 = 1)
    (hwf : ∀ q ∈ (st.target.get_shape_keys_vert_pos false).getD [],
      (q.2 : List Vec3).length = st.target.verts.length)
    (nm : String) (pts : List Vec3) (hmem : (nm, pts) ∈ shape_keys)
    (hnb : nm ≠ basisKeyName)
    (hlk : lookupPairs ((st.target.get_shape_keys_vert_pos false).getD []) nm = none) :
    st.transfer_shape_keys.2 = Except.ok true ∧
    ∃ l : List Vec3,
      MeshData.get_shape_key_vert_pos st.transfer_shape_keys.1 nm = some l ∧
      l.length = st.target.verts.length ∧
      ∀ i, i < st.target.verts.length →
        st.ensure_projection_cache.missed_projections.getD i true = false →
        ∀ bc, st.ensure_projection_cache.barycentric_coords.getD i none = some bc →
          l.getD i Vec3.zero = calculate_barycentric_location
            (triOfIds pts (st.ensure_projection_cache.related_ids.getD i (0, 0, 0))) bc := by
  obtain ⟨hok, hentry⟩ :=
    transfer_shape_keys_entry_general st hproj shape_keys hsk hnodup nm pts hmem hnb
  rw [hmask] at hentry
  have hlen := transfer_one_shape_key_array_length st hproj
    ((st.target.get_shape_keys_vert_pos false).getD []) hwf mask hmlen (nm, pts)
  refine ⟨hok, _, hentry, ?_, ?_⟩
  · rw [List.length_map]
    exact hlen
  · intro i hi hmiss bc hbc
    obtain ⟨v, hrow, hchar⟩ := transfer_one_shape_key_array_getD st hproj
      ((st.target.get_shape_keys_vert_pos false).getD []) hwf mask hmlen (nm, pts) i hi
    have hmg := map_getD (fun o : Option Vec3 => o.getD Vec3.zero)
      (transfer_one_shape_key_array st st.target.get_verts_position
        st.base_transferred_position (some mask)
        ((st.target.get_shape_keys_vert_pos false).getD []) (nm, pts)) i (by omega)
      none Vec3.zero
    rw [hmg, hrow]
    simp only [Option.getD_some]
    rw [hone i hi, Vec3.smul_blend_one]
    exact hchar hmiss hlk bc hbc

/-- C2 witness: `claim_C2_amended` at the concrete state `c2State`. -/
theorem claim_C2_witness :
    c2State.transfer_shape_keys.2 = Except.ok true ∧
    ∃ l : List Vec3,
      MeshData.get_shape_key_vert_pos c2State.transfer_shape_keys.1 keyAName = some l ∧
      l.length = c2State.target.verts.length ∧
      ∀ i, i < c2State.target.verts.length →
        c2State.ensure_projection_cache.missed_projections.getD i true = false →
        ∀ bc, c2State.ensure_projection_cache.barycentric_coords.getD i none = some bc →
          l.getD i Vec3.zero = calculate_barycentric_location
            (triOfIds [⟨0, 0, 1⟩, ⟨1, 0, 1⟩, ⟨0, 1, 1⟩]
              (c2State.ensure_projection_cache.related_ids.getD i (0, 0, 0))) bc :=
  claim_C2_amended c2State (by with_unfolding_all decide)
    [(keyAName, [⟨0, 0, 1⟩, ⟨1, 0, 1⟩, ⟨0, 1, 1⟩])] (by with_unfolding_all decide)
    (by with_unfolding_all decide) [1] (by with_unfolding_all decide)
    (by with_unfolding_all decide)
    (by
      intro i hi
      have h0 : i = 0 := by
        have : c2State.target.verts.length = 1 := rfl
        omega
      rw [h0]
      rfl)
    (by with_unfolding_all decide) keyAName [⟨0, 0, 1⟩, ⟨1, 0, 1⟩, ⟨0, 1, 1⟩]
    (by with_unfolding_all decide) (by with_unfolding_all decide)
    (by with_unfolding_all decide)

theorem tri_plane_pt_corner_a (t : Tri) : tri_plane_pt t 0 0 = t.1 := by
  obtain ⟨⟨a1, a2, a3⟩, ⟨b1, b2, b3⟩, ⟨c1, c2, c3⟩⟩ := t
  simp only [tri_plane_pt, Vec3.smul_def, Vec3.add_def, Vec3.sub_def, Vec3.mk.injEq]
  refine ⟨by ring, by ring, by ring⟩

theorem tri_plane_pt_corner_b (t : Tri) : tri_plane_pt t 1 0 = t.2.1 := by
  obtain ⟨⟨a1, a2, a3⟩, ⟨b1, b2, b3⟩, ⟨c1, c2, c3⟩⟩ := t
  simp only [tri_plane_pt, Vec3.smul_def, Vec3.add_def, Vec3.sub_def, Vec3.mk.injEq]
  refine ⟨by ring, by ring, by ring⟩

theorem tri_plane_pt_corner_c (t : Tri) : tri_plane_pt t 0 1 = t.2.2 := by
  obtain ⟨⟨a1, a2, a3⟩, ⟨b1, b2, b3⟩, ⟨c1, c2, c3⟩⟩ := t
  simp only [tri_plane_pt, Vec3.smul_def, Vec3.add_def, Vec3.sub_def, Vec3.mk.injEq]
  refine ⟨by ring, by ring, by ring⟩

/-- C9: transferring a mesh's positions onto itself in a projection mode
with no mask reproduces the mesh's own vertex positions exactly.  The
oracle hypotheses state the closest-point contract of the BVH for the
queried points: every query hits (`hhit`) a point on the hit face's plane
(`honplane`) at least as close as any plane point of any face (`hmin`);
`hcover` says every vertex belongs to some face and `hnondeg` that hit
triangles are non-degenerate. -/
theorem claim_C9 (st : XferState)
    (hsame : st.target = st.source)
    (hproj : st.search_method ≠ topologyMethod)
    (hmask : st.get_vertices_mask = none)
    (hhit : ∀ i, i < st.target.verts.length →
      st.nearest (st.target.verts.getD i Vec3.zero) ≠ none)
    (honplane : ∀ i, i < st.target.verts.length → ∀ p fi,
      st.nearest (st.target.verts.getD i Vec3.zero) = some (p, fi) →
      ∃ a b : ℚ, p = tri_plane_pt (triOfFace st.source
        (st.source.faces.getD fi (0, 0, 0))) a b)
    (hmin : ∀ i, i < st.target.verts.length → ∀ p fi,
      st.nearest (st.target.verts.getD i Vec3.zero) = some (p, fi) →
      ∀ f ∈ st.source.faces, ∀ a b : ℚ,
        Vec3.sqDist (st.target.verts.getD i Vec3.zero) p ≤
          Vec3.sqDist (st.target.verts.getD i Vec3.zero)
            (tri_plane_pt (triOfFace st.source f) a b))
    (hcover : ∀ i, i < st.target.verts.length → ∃ f ∈ st.source.faces,
      f.1 = i ∨ f.2.1 = i ∨ f.2.2 = i)
    (hnondeg : ∀ i, i < st.target.verts.length → ∀ p fi,
      st.nearest (st.target.verts.getD i Vec3.zero) = some (p, fi) →
      baryDenom (triOfFace st.source (st.source.faces.getD fi (0, 0, 0))) ≠ 0) :
    (st.transfer_vertex_position false).1.verts = st.source.verts ∧
    (st.transfer_vertex_position false).2 = Except.ok true := by
  have harr : transfer_vertex_position_array st =
      whereMissed st.ensure_projection_cache.missed_projections st.target.get_verts_position
        (if st.ensure_projection_cache.has_zero_area_faces then
          replace_nan st.target.get_verts_position
            (get_transferred_vert_coords st.ensure_projection_cache
              st.source.get_verts_position)
        else get_transferred_vert_coords st.ensure_projection_cache
          st.source.get_verts_position) := by
    rw [transfer_vertex_position_array, hmask]
  have hwlen : (transfer_vertex_position_array st).length = st.target.verts.length := by
    rw [harr, whereMissed, zipWith3L_length]
    have h1 := cache_missed_length st
    have h2 := get_transferred_length st st.source.get_verts_position
    have h2b : (get_transferred_vert_coords st.ensure_projection_cache
        st.source.verts).length = st.target.verts.length := get_transferred_length st _
    have hub : st.target.get_verts_position.length = st.target.verts.length := rfl
    have hT : (if st.ensure_projection_cache.has_zero_area_faces then
        replace_nan st.target.get_verts_position
          (get_transferred_vert_coords st.ensure_projection_cache
            st.source.get_verts_position)
      else get_transferred_vert_coords st.ensure_projection_cache
        st.source.get_verts_position).length = st.target.verts.length := by
      by_cases hz : st.ensure_projection_cache.has_zero_area_faces <;>
        simp [hz, replace_nan, List.length_zipWith, h2, h2b, hub,
          MeshData.get_verts_position]
    omega
  have hrowq : ∀ i, i < st.target.verts.length →
      (transfer_vertex_position_array st).getD i none =
        some (st.target.verts.getD i Vec3.zero) := by
    intro i hi
    rw [harr]
    obtain ⟨v, hrow, hm, hnn, hbc⟩ := base_pipeline_getD st st.source.get_verts_position i hi
    rw [hrow]
    rcases hk : st.nearest (st.target.verts.getD i Vec3.zero) with _ | ⟨p, fi⟩
    · exact absurd hk (hhit i hi)
    · have hpa : st.projAt i =
          ⟨p, triOfFace st.source (st.source.faces.getD fi (0, 0, 0)),
            st.source.faces.getD fi (0, 0, 0), false⟩ := by
        rw [XferState.projAt, cast_vert, hk]
      have hmiss : st.ensure_projection_cache.missed_projections.getD i true = false := by
        rw [cache_missed_getD st i hi, hpa]
      obtain ⟨f, hf, hcase⟩ := hcover i hi
      obtain ⟨a0, b0, hq⟩ : ∃ a b : ℚ, tri_plane_pt (triOfFace st.source f) a b =
          st.target.verts.getD i Vec3.zero := by
        rcases hcase with h | h | h
        · refine ⟨0, 0, ?_⟩
          rw [tri_plane_pt_corner_a]
          show st.source.verts.getD f.1 Vec3.zero = st.target.verts.getD i Vec3.zero
          rw [h, hsame]
        · refine ⟨1, 0, ?_⟩
          rw [tri_plane_pt_corner_b]
          show st.source.verts.getD f.2.1 Vec3.zero = st.target.verts.getD i Vec3.zero
          rw [h, hsame]
        · refine ⟨0, 1, ?_⟩
          rw [tri_plane_pt_corner_c]
          show st.source.verts.getD f.2.2 Vec3.zero = st.target.verts.getD i Vec3.zero
          rw [h, hsame]
      have hle := hmin i hi p fi hk f hf a0 b0
      rw [hq, Vec3.sqDist_self] at hle
      have hzero2 : Vec3.sqDist (st.target.verts.getD i Vec3.zero) p = 0 :=
        le_antisymm hle (Vec3.sqDist_nonneg _ _)
      have hpq : st.target.verts.getD i Vec3.zero = p := Vec3.eq_of_sqDist_eq_zero hzero2
      obtain ⟨a2, b2, hpl⟩ := honplane i hi p fi hk
      have hden := hnondeg i hi p fi hk
      have hbrow : st.ensure_projection_cache.barycentric_coords.getD i none =
          some (1 - a2 - b2, a2, b2) := by
        rw [cache_bary_getD st i hi, hpa]
        dsimp only
        rw [hpl]
        exact get_barycentric_coords_plane_pt _ a2 b2 hden
      have hrel : st.ensure_projection_cache.related_ids.getD i (0, 0, 0) =
          st.source.faces.getD fi (0, 0, 0) := by
        rw [cache_related_getD st i hi, hpa]
      have hv := hbc (1 - a2 - b2, a2, b2) hbrow hmiss
      rw [hrel] at hv
      have htri : triOfIds st.source.get_verts_position
          (st.source.faces.getD fi (0, 0, 0)) =
          triOfFace st.source (st.source.faces.getD fi (0, 0, 0)) := rfl
      rw [htri, calculate_barycentric_location_plane_pt] at hv
      rw [hv, ← hpl, ← hpq]
  have hslen : st.source.verts.length = st.target.verts.length := by rw [hsame]
  have hfinal : (transfer_vertex_position_array st).map (fun o => o.getD Vec3.zero) =
      st.source.verts := by
    apply List.ext_getElem
    · rw [List.length_map, hwlen, hslen]
    · intro i h1 h2
      have hi : i < st.target.verts.length := by
        rw [List.length_map, hwlen] at h1
        exact h1
      rw [← List.getD_eq_getElem ((transfer_vertex_position_array st).map
          fun o => o.getD Vec3.zero) Vec3.zero h1,
        ← List.getD_eq_getElem st.source.verts Vec3.zero h2,
        map_getD (fun o : Option Vec3 => o.getD Vec3.zero)
          (transfer_vertex_position_array st) i (by omega) none Vec3.zero,
        hrowq i hi]
      simp only [Option.getD_some]
      rw [hsame]
  rw [XferState.transfer_vertex_position]
  dsimp only
  rw [if_neg hproj, if_neg (show ¬((false : Bool) = true) by simp)]
  exact ⟨hfinal, rfl⟩

/-- C9 witness state: the unit triangle as both source and target, with the
oracle returning the query point itself on face 0 (every target vertex lies
on the source surface). -/
def c9State : XferState :=
  { source := srcTriMesh
    target := srcTriMesh
    search_method := closestMethod
    vertex_group := none
    invert_vertex_group := false
    restrict_to_selection := false
    exclude_locked_groups := false
    exclude_muted_shapekeys := false
    nearest := fun q => some (q, 0) }

/-- C9 witness: `claim_C9` at the concrete state `c9State` — projecting the
unit triangle onto itself writes back its own vertex positions. -/
theorem claim_C9_witness :
    (c9State.transfer_vertex_position false).1.verts = c9State.source.verts ∧
    (c9State.transfer_vertex_position false).2 = Except.ok true :=
  claim_C9 c9State rfl (by with_unfolding_all decide) rfl
    (by
      intro i hi
      exact Option.some_ne_none _)
    (by
      intro i hi p fi hn
      have hn2 : some (c9State.target.verts.getD i Vec3.zero, 0) = some (p, fi) := hn
      simp only [Option.some.injEq, Prod.mk.injEq] at hn2
      obtain ⟨hp, hfi⟩ := hn2
      subst hp
      subst hfi
      have hi3 : i < 3 := hi
      interval_cases i
      · exact ⟨0, 0, by with_unfolding_all decide⟩
      · exact ⟨1, 0, by with_unfolding_all decide⟩
      · exact ⟨0, 1, by with_unfolding_all decide⟩)
    (by
      intro i hi p fi hn f hf a b
      have hn2 : some (c9State.target.verts.getD i Vec3.zero, 0) = some (p, fi) := hn
      simp only [Option.some.injEq, Prod.mk.injEq] at hn2
      obtain ⟨hp, hfi⟩ := hn2
      rw [← hp, Vec3.sqDist_self]
      exact Vec3.sqDist_nonneg _ _)
    (by
      intro i hi
      have hi3 : i < 3 := hi
      interval_cases i
      · exact ⟨(0, 1, 2), by with_unfolding_all decide, by with_unfolding_all decide⟩
      · exact ⟨(0, 1, 2), by with_unfolding_all decide, by with_unfolding_all decide⟩
      · exact ⟨(0, 1, 2), by with_unfolding_all decide, by with_unfolding_all decide⟩)
    (by
      intro i hi p fi hn
      have hn2 : some (c9State.target.verts.getD i Vec3.zero, 0) = some (p, fi) := hn
      simp only [Option.some.injEq, Prod.mk.injEq] at hn2
      obtain ⟨hp, hfi⟩ := hn2
      subst hfi
      with_unfolding_all decide)
